import Mathlib

/-!
# cronparser: a shallow embedding of `cronparser.go`

Go strings are modelled as lists of characters (`Str`).  Every character the
program inspects (`0`-`9`, `*`, `/`, `=`, `#`, space, tab, newline) is ASCII, so
the byte view and the character view of a string agree on everything the parser
does.

A Go result `(T, error)` is an `Except Err T`; a call that can also stop with a
run-time panic (an index out of range) has the three-way result `Res`.  The
methods of `*CronParser` mutate their receiver, so they are modelled as functions
from the receiver's state to the returned value paired with the new state.
-/

namespace Cronparser

/-- A Go `string`. -/
abbrev Str := List Char

/-! ## Errors -/

/-- The values built by `fmt.Errorf` in the source, one constructor per format
string, carrying the formatted arguments. -/
inductive Err where
  /-- The text is "Could not locate key for environment line %q". -/
  | missingKey (line : Str)
  /-- The text is "Minute is invalid: %q, error: %v" (built by `parseSectionVar`). -/
  | minuteInvalid (str : Str) (err : Err)
  /-- The text is "Not enough components found in cron line %q". -/
  | notEnoughComponents (line : Str)
  /-- The text is "Could not parse section part %q". -/
  | sectionPart (sect : Str)
  /-- The text is "Could not parser cron section %q". -/
  | sectionCount (section_ : Str)
  /-- The text is "Right-hand side may not have a starred interval". -/
  | starredInterval
  deriving DecidableEq, Repr

deriving instance DecidableEq for Except

/-- Outcome of a Go call returning `(T, error)` that may also panic. -/
inductive Res (α : Type) where
  | ok (a : α)
  | error (e : Err)
  /-- A run-time panic: index out of range. -/
  | panic
  deriving DecidableEq, Repr

/-- Outcome of a Go call returning `error` that may also panic. -/
inductive Ret where
  /-- The call returned `nil`. -/
  | nil
  /-- The call returned a non-nil error. -/
  | error (e : Err)
  /-- The call did not return: run-time panic (index out of range). -/
  | panic
  deriving DecidableEq, Repr

/-! ## Library functions used by the source -/

/-- The cut of `s` at the first occurrence of `sep`: `s[:m]` and `s[m+1:]` for
`m := strings.Index(s, sep)`, or `none` when `m < 0`. -/
def Cut (sep : Char) : Str → Option (Str × Str)
  | [] => none
  | c :: cs =>
    if c = sep then some ([], cs)
    else (Cut sep cs).map (fun p => (c :: p.1, p.2))

/-- Go `strings.SplitN(s, sep, n)` for a one-character separator and `n ≥ 0`:
at most `n` pieces, the last one being the unsplit remainder. -/
def SplitN (sep : Char) : Str → Nat → List Str
  | _, 0 => []
  | s, 1 => [s]
  | s, n + 2 =>
    match Cut sep s with
    | none => [s]
    | some (a, b) => a :: SplitN sep b (n + 1)

/-- Go `strings.Split(s, sep)`, which is `SplitN` with `n = Count(s, sep) + 1`. -/
def Split (sep : Char) (s : Str) : List Str :=
  SplitN sep s (s.count sep + 1)

/-- The cutset `" \t"`. -/
def isBlank (c : Char) : Bool := c = ' ' || c = '\t'

/-- Go `strings.TrimLeft(s, " \t")`. -/
def TrimLeft (s : Str) : Str := s.dropWhile isBlank

/-- Go `strings.HasPrefix(s, "#")`. -/
def HasPrefixHash (s : Str) : Bool :=
  match s with
  | c :: _ => c = '#'
  | [] => false

/-- The character class `[0-9*]`. -/
def isSectionChar (c : Char) : Bool := c.isDigit || c = '*'

/-- The regexp `^[0-9*]+$` of `regexSection`, as `MatchString`. -/
def regexSection (s : Str) : Bool := !s.isEmpty && s.all isSectionChar

/-- The regexp `^\d*$` of `regexRHS`, as `MatchString`. -/
def regexRHS (s : Str) : Bool := s.all Char.isDigit

/-- The first match of `[ \t]+` in `s`: the text before the match and the text
after it (the match is the maximal run of blanks), or `none` without a match. -/
def CutBlanks : Str → Option (Str × Str)
  | [] => none
  | c :: cs =>
    if isBlank c then some ([], cs.dropWhile isBlank)
    else (CutBlanks cs).map (fun p => (c :: p.1, p.2))

/-- Go `regexWhitespace.Split(s, n)` for `n ≥ 0`, where `regexWhitespace` is
`[ \t]+`: the pieces between successive matches, at most `n` of them, the last
being the unsplit remainder. -/
def regexWhitespaceSplit : Str → Nat → List Str
  | _, 0 => []
  | s, 1 => [s]
  | s, n + 2 =>
    match CutBlanks s with
    | none => [s]
    | some (a, b) => a :: regexWhitespaceSplit b (n + 1)

/-! ## Data model -/

/-- The struct `CronSection`. -/
structure CronSection where
  Time : Str
  Interval : Str
  deriving DecidableEq, Repr

/-- The struct `CronEntry`; a `*CronSection` field is `none` when nil. -/
structure CronEntry where
  Minute : Option CronSection
  Hour : Option CronSection
  Day : Option CronSection
  Month : Option CronSection
  DayOfWeek : Option CronSection
  User : Str
  Command : Str
  deriving DecidableEq, Repr

/-- The struct `CronParser`.  The Go map `Environment` is a partial function from keys
to values: `none` is an absent key.  The map is allocated, as `NewCronParser` leaves
it, so that an assignment to it succeeds. -/
structure CronParser where
  Environment : Str → Option Str
  CronTab : List CronEntry

/-- The function `NewCronParser`. -/
def NewCronParser : CronParser :=
  { Environment := fun _ => none, CronTab := [] }

/-- The map assignment `m[key] = value`. -/
def mapSet (m : Str → Option Str) (key value : Str) : Str → Option Str :=
  fun k => if k = key then some value else m k

/-! ## The parser -/

/-- The function `parseSection`. -/
def parseSection (section_ : Str) : Except Err CronSection :=
  let sections := SplitN '/' section_ 2
  -- the `for` over `sections`, appending to `strs`; it returns at the first part
  -- that `regexSection` does not match
  let rec loop : List Str → List Str → Except Err (List Str)
    | [], strs => .ok strs
    | sect :: rest, strs =>
      if !regexSection sect then .error (.sectionPart sect)
      else loop rest (strs ++ [sect])
  match loop sections [] with
  | .error e => .error e
  | .ok strs =>
    -- the `switch len(strs)`, then `strs[0]` and `strs[1]`
    let padded : Except Err (Str × Str) :=
      match strs with
      | [a, b] => .ok (a, b)
      | [a] => .ok (a, [])
      | _ => .error (.sectionCount section_)
    match padded with
    | .error e => .error e
    | .ok (s0, s1) =>
      if !regexRHS s1 then .error .starredInterval
      else .ok { Time := s0, Interval := s1 }

/-- The function `parseSectionVar`: the value stored through `cs` and the
returned error (`none` for nil). -/
def parseSectionVar (str : Str) : Option CronSection × Option Err :=
  match parseSection str with
  | .error err => (none, some (.minuteInvalid str err))
  | .ok cs => (some cs, none)

/-- The function `parseLine`. -/
def parseLine (line : Str) : Except Err CronEntry :=
  match regexWhitespaceSplit line 7 with
  | [s0, s1, s2, s3, s4, s5, s6] =>
    let entry : CronEntry :=
      { Minute := none, Hour := none, Day := none, Month := none, DayOfWeek := none,
        User := s5, Command := s6 }
    match parseSectionVar s0 with
    | (_, some err) => .error err
    | (cs, none) =>
    let entry := { entry with Minute := cs }
    match parseSectionVar s1 with
    | (_, some err) => .error err
    | (cs, none) =>
    let entry := { entry with Hour := cs }
    match parseSectionVar s2 with
    | (_, some err) => .error err
    | (cs, none) =>
    let entry := { entry with Day := cs }
    match parseSectionVar s3 with
    | (_, some err) => .error err
    | (cs, none) =>
    let entry := { entry with Month := cs }
    match parseSectionVar s4 with
    | (_, some err) => .error err
    | (cs, none) =>
    let entry := { entry with DayOfWeek := cs }
    .ok entry
  | _ => .error (.notEnoughComponents line)

/-- The function `parseEnvironment`; `parts[1]` is out of range when the line
has no `=`. -/
def parseEnvironment (line : Str) : Res (Str × Str) :=
  match SplitN '=' line 2 with
  | [] => .panic
  | p0 :: rest =>
    if p0 = [] then .error (.missingKey line)
    else
      match rest with
      | [] => .panic
      | p1 :: _ => .ok (p0, p1)

/-- The method `ParseEntry`. -/
def ParseEntry (cp : CronParser) (line : Str) : Ret × CronParser :=
  match parseLine line with
  | .error err => (.error err, cp)
  | .ok ce => (.nil, { cp with CronTab := cp.CronTab ++ [ce] })

/-- The method `ParseEnvironment`. -/
def ParseEnvironment (cp : CronParser) (line : Str) : Ret × CronParser :=
  match parseEnvironment line with
  | .panic => (.panic, cp)
  | .error err => (.error err, cp)
  | .ok (key, value) => (.nil, { cp with Environment := mapSet cp.Environment key value })

/-- The method `ParseLine`. -/
def ParseLine (cp : CronParser) (line : Str) : Ret × CronParser :=
  match ParseEntry cp line with
  | (.nil, cp1) => (.nil, cp1)
  | (_, cp1) => ParseEnvironment cp1 line

/-- The test of the loop of `ParseCronTab` on a trimmed line:
`line == "" || strings.HasPrefix(line, "#")`. -/
def isIgnored (line : Str) : Bool := line.isEmpty || HasPrefixHash line

/-- The loop of `ParseCronTab` over the lines of the body. -/
def ParseCronTabLoop (cp : CronParser) : List Str → Ret × CronParser
  | [] => (.nil, cp)
  | line :: rest =>
    let line := TrimLeft line
    if isIgnored line then ParseCronTabLoop cp rest
    else
      match ParseLine cp line with
      | (.nil, cp1) => ParseCronTabLoop cp1 rest
      | (r, cp1) => (r, cp1)

/-- The method `ParseCronTab`. -/
def ParseCronTab (cp : CronParser) (body : Str) : Ret × CronParser :=
  ParseCronTabLoop cp (Split '\n' body)

/-- The number of maximal runs of spaces and tabs in a string, counted as the blanks
that start a run; `prev` tells whether the character before is a blank. -/
def blankRunsFrom (prev : Bool) : Str → Nat
  | [] => 0
  | c :: cs => (if isBlank c && !prev then 1 else 0) + blankRunsFrom (isBlank c) cs

/-- The number of maximal runs of spaces and tabs in a string. -/
def blankRuns (s : Str) : Nat := blankRunsFrom false s

/-- A call of one of the four methods of a parser. -/
inductive Call where
  | cronTab (body : Str)
  | line (line : Str)
  | entry (line : Str)
  | environment (line : Str)

/-- The state of the parser after a call, whatever the call returns. -/
def Call.run (cp : CronParser) : Call → CronParser
  | .cronTab body => (ParseCronTab cp body).2
  | .line l => (ParseLine cp l).2
  | .entry l => (ParseEntry cp l).2
  | .environment l => (ParseEnvironment cp l).2

/-- The state of the parser after a sequence of calls. -/
def runCalls (cp : CronParser) (calls : List Call) : CronParser :=
  calls.foldl Call.run cp

/-- The invariant of a section: a non-empty time over `0`-`9` and `*`, an interval of
digits. -/
def SectionOk (c : CronSection) : Prop :=
  c.Time ≠ [] ∧ (∀ x ∈ c.Time, x.isDigit = true ∨ x = '*') ∧ ∀ x ∈ c.Interval, x.isDigit = true

/-- The invariant of an entry: its five sections are present and satisfy `SectionOk`. -/
def EntryOk (e : CronEntry) : Prop :=
  ∀ o ∈ [e.Minute, e.Hour, e.Day, e.Month, e.DayOfWeek], ∃ c, o = some c ∧ SectionOk c

/-- The invariant of a parser state: every entry satisfies `EntryOk` and no key of the
environment is empty. -/
def Invariant (cp : CronParser) : Prop :=
  (∀ e ∈ cp.CronTab, EntryOk e) ∧ ∀ k v, cp.Environment k = some v → k ≠ []

/-! ## Lemmas on the library functions -/

theorem Cut_eq_none (sep : Char) (s : Str) : Cut sep s = none ↔ sep ∉ s := by
  induction s with
  | nil => simp [Cut]
  | cons c cs ih =>
    by_cases h : c = sep
    · simp [Cut, h]
    · simp [Cut, h, ih, Ne.symm h]

theorem Cut_eq_some (sep : Char) (s a b : Str) :
    Cut sep s = some (a, b) ↔ s = a ++ sep :: b ∧ sep ∉ a := by
  induction s generalizing a with
  | nil => simp [Cut]
  | cons c cs ih =>
    by_cases h : c = sep
    · subst h
      cases a with
      | nil => simp [Cut]
      | cons x xs =>
        simp only [Cut, if_true, Option.some.injEq, Prod.mk.injEq, List.cons_append,
          List.cons.injEq, List.mem_cons, not_or]
        constructor
        · intro h; exact absurd h.1 (by simp)
        · rintro ⟨⟨rfl, -⟩, h, -⟩; exact absurd rfl h
    · cases a with
      | nil =>
        simp only [Cut, h, if_false, Option.map_eq_some', List.nil_append, List.cons.injEq]
        constructor
        · rintro ⟨p, -, hp⟩; simp at hp
        · rintro ⟨⟨hf, -⟩, -⟩; exact hf.elim
      | cons x xs =>
        simp only [Cut, h, if_false, Option.map_eq_some', List.cons_append, List.cons.injEq,
          List.mem_cons, not_or]
        constructor
        · rintro ⟨⟨p1, p2⟩, hp, heq⟩
          simp only [Prod.mk.injEq, List.cons.injEq] at heq
          obtain ⟨⟨rfl, rfl⟩, rfl⟩ := heq
          obtain ⟨h1, h2⟩ := (ih p1).1 hp
          exact ⟨⟨rfl, h1⟩, Ne.symm h, h2⟩
        · rintro ⟨⟨rfl, h1⟩, -, h2⟩
          exact ⟨(xs, b), (ih xs).2 ⟨h1, h2⟩, rfl⟩

theorem Cut_append (sep : Char) (a b : Str) (h : sep ∉ a) :
    Cut sep (a ++ sep :: b) = some (a, b) :=
  (Cut_eq_some sep _ a b).2 ⟨rfl, h⟩

theorem regexSection_iff (s : Str) :
    regexSection s = true ↔ s ≠ [] ∧ ∀ c ∈ s, c.isDigit = true ∨ c = '*' := by
  cases s <;> simp [regexSection, isSectionChar]

theorem regexRHS_iff (s : Str) : regexRHS s = true ↔ ∀ c ∈ s, c.isDigit = true := by
  simp [regexRHS]

theorem slash_not_mem_of_regexSection (s : Str) (h : regexSection s = true) : '/' ∉ s := by
  intro hm
  have := ((regexSection_iff s).1 h).2 _ hm
  revert this
  decide

/-- The function `parseSection`, by cases on the first `/` of the token. -/
theorem parseSection_eq (token : Str) :
    parseSection token =
      match Cut '/' token with
      | none =>
        if regexSection token then .ok { Time := token, Interval := [] }
        else .error (.sectionPart token)
      | some (a, b) =>
        if !regexSection a then .error (.sectionPart a)
        else if !regexSection b then .error (.sectionPart b)
        else if !regexRHS b then .error .starredInterval
        else .ok { Time := a, Interval := b } := by
  unfold parseSection
  cases hc : Cut '/' token with
  | none =>
    by_cases h : regexSection token = true <;>
      simp [SplitN, hc, parseSection.loop, h, regexRHS]
  | some p =>
    obtain ⟨a, b⟩ := p
    by_cases ha : regexSection a = true <;> by_cases hb : regexSection b = true <;>
      by_cases hr : regexRHS b = true <;>
      simp [SplitN, hc, parseSection.loop, ha, hb, hr]

/-- Acceptance by `parseSection`: a base, or a base, a `/` and a step. -/
theorem parseSection_ok_iff (token : Str) (r : CronSection) :
    parseSection token = .ok r ↔
      ((token ≠ [] ∧ (∀ c ∈ token, c.isDigit = true ∨ c = '*') ∧
          r = { Time := token, Interval := [] }) ∨
       ∃ b s : Str, token = b ++ '/' :: s ∧
          (b ≠ [] ∧ ∀ c ∈ b, c.isDigit = true ∨ c = '*') ∧
          (s ≠ [] ∧ ∀ c ∈ s, c.isDigit = true) ∧
          r = { Time := b, Interval := s }) := by
  rw [parseSection_eq]
  constructor
  · intro h
    cases hc : Cut '/' token with
    | none =>
      rw [hc] at h
      by_cases hs : regexSection token = true
      · simp only [hs, if_true, Except.ok.injEq] at h
        obtain ⟨h1, h2⟩ := (regexSection_iff token).1 hs
        exact Or.inl ⟨h1, h2, h.symm⟩
      · simp [hs] at h
    | some p =>
      obtain ⟨a, b⟩ := p
      rw [hc] at h
      obtain ⟨heq, -⟩ := (Cut_eq_some _ _ _ _).1 hc
      by_cases ha : regexSection a = true
      · by_cases hb : regexSection b = true
        · by_cases hr : regexRHS b = true
          · simp only [ha, hb, hr, Bool.not_true, Bool.false_eq_true, if_false,
              Except.ok.injEq] at h
            exact Or.inr ⟨a, b, heq, (regexSection_iff a).1 ha,
              ⟨((regexSection_iff b).1 hb).1, (regexRHS_iff b).1 hr⟩, h.symm⟩
          · simp [ha, hb, hr] at h
        · simp [ha, hb] at h
      · simp [ha] at h
  · rintro (⟨h1, h2, rfl⟩ | ⟨b, s, rfl, hb, hs, rfl⟩)
    · have hs : regexSection token = true := (regexSection_iff token).2 ⟨h1, h2⟩
      have hc : Cut '/' token = none :=
        (Cut_eq_none _ _).2 (slash_not_mem_of_regexSection _ hs)
      simp [hc, hs]
    · have hb1 : regexSection b = true := (regexSection_iff b).2 hb
      have hs1 : regexSection s = true :=
        (regexSection_iff s).2 ⟨hs.1, fun c hc => Or.inl (hs.2 c hc)⟩
      have hs2 : regexRHS s = true := (regexRHS_iff s).2 hs.2
      rw [Cut_append _ _ _ (slash_not_mem_of_regexSection _ hb1)]
      simp [hb1, hs1, hs2]


theorem isBlank_iff (c : Char) : isBlank c = true ↔ c = ' ' ∨ c = '\t' := by
  simp [isBlank]

theorem isBlank_eq_false_iff (c : Char) : isBlank c = false ↔ c ≠ ' ' ∧ c ≠ '\t' := by
  simp [isBlank]

/-- Dropping the leading blanks of a run of blanks followed by a text that does not
start with a blank leaves that text. -/
theorem dropWhile_isBlank_append (w rest : Str) (hw : ∀ x ∈ w, isBlank x = true)
    (hr : ∀ x, rest.head? = some x → isBlank x = false) :
    (w ++ rest).dropWhile isBlank = rest := by
  induction w with
  | nil =>
    cases rest with
    | nil => rfl
    | cons x xs => simp [List.dropWhile, hr x rfl]
  | cons x xs ih =>
    have hx : isBlank x = true := hw x (List.mem_cons_self _ _)
    simp only [List.cons_append, List.dropWhile, hx, List.append_eq]
    exact ih (fun y hy => hw y (List.mem_cons_of_mem _ hy))

/-- The first match of `[ \t]+` in `t w rest` is the run `w`. -/
theorem CutBlanks_append (t w rest : Str) (ht : ∀ x ∈ t, isBlank x = false)
    (hw0 : w ≠ []) (hw : ∀ x ∈ w, isBlank x = true)
    (hr : ∀ x, rest.head? = some x → isBlank x = false) :
    CutBlanks (t ++ (w ++ rest)) = some (t, rest) := by
  induction t with
  | nil =>
    cases w with
    | nil => exact absurd rfl hw0
    | cons x xs =>
      have hx : isBlank x = true := hw x (List.mem_cons_self _ _)
      simp only [List.nil_append, List.cons_append, CutBlanks, hx, if_true, List.append_eq]
      rw [dropWhile_isBlank_append xs rest (fun y hy => hw y (List.mem_cons_of_mem _ hy)) hr]
  | cons x xs ih =>
    have hx : isBlank x = false := ht x (List.mem_cons_self _ _)
    simp only [List.cons_append, CutBlanks, hx, Bool.false_eq_true, if_false, List.append_eq]
    rw [ih (fun y hy => ht y (List.mem_cons_of_mem _ hy))]
    rfl

/-- One step of `regexWhitespaceSplit` on `t w rest`. -/
theorem regexWhitespaceSplit_append (n : Nat) (t w rest : Str)
    (ht : ∀ x ∈ t, isBlank x = false) (hw0 : w ≠ []) (hw : ∀ x ∈ w, isBlank x = true)
    (hr : ∀ x, rest.head? = some x → isBlank x = false) :
    regexWhitespaceSplit (t ++ (w ++ rest)) (n + 2) = t :: regexWhitespaceSplit rest (n + 1) := by
  simp only [regexWhitespaceSplit, CutBlanks_append t w rest ht hw0 hw hr]

/-- A token accepted by `parseSection` is not empty and holds no blank. -/
theorem parseSection_ok_token (t : Str) (r : CronSection) (h : parseSection t = .ok r) :
    t ≠ [] ∧ ∀ x ∈ t, isBlank x = false := by
  rcases (parseSection_ok_iff t r).1 h with ⟨h1, h2, -⟩ | ⟨b, s, rfl, ⟨hb0, hb⟩, ⟨-, hs⟩, -⟩
  · refine ⟨h1, fun x hx => ?_⟩
    rcases h2 x hx with hd | rfl
    · rw [isBlank_eq_false_iff]
      constructor <;> rintro rfl <;> revert hd <;> decide
    · decide
  · refine ⟨by simp, fun x hx => ?_⟩
    simp only [List.mem_append, List.mem_cons] at hx
    rcases hx with hx | rfl | hx
    · rcases hb x hx with hd | rfl
      · rw [isBlank_eq_false_iff]
        constructor <;> rintro rfl <;> revert hd <;> decide
      · decide
    · decide
    · have hd := hs x hx
      rw [isBlank_eq_false_iff]
      constructor <;> rintro rfl <;> revert hd <;> decide

/-- A non-empty text without blanks, followed by anything, does not start with a
blank. -/
theorem head_not_blank_append (t rest : Str) (h0 : t ≠ [])
    (ht : ∀ x ∈ t, isBlank x = false) :
    ∀ x, (t ++ rest).head? = some x → isBlank x = false := by
  cases t with
  | nil => exact absurd rfl h0
  | cons y ys =>
    intro x hx
    simp only [List.cons_append, List.head?_cons, Option.some.injEq] at hx
    subst hx
    exact ht y (List.mem_cons_self _ _)

/-- The function `parseLine` on a line that splits into seven tokens. -/
theorem parseLine_of_split (line s0 s1 s2 s3 s4 s5 s6 : Str) (c0 c1 c2 c3 c4 : CronSection)
    (hs : regexWhitespaceSplit line 7 = [s0, s1, s2, s3, s4, s5, s6])
    (h0 : parseSection s0 = .ok c0) (h1 : parseSection s1 = .ok c1)
    (h2 : parseSection s2 = .ok c2) (h3 : parseSection s3 = .ok c3)
    (h4 : parseSection s4 = .ok c4) :
    parseLine line = .ok
      { Minute := some c0, Hour := some c1, Day := some c2, Month := some c3,
        DayOfWeek := some c4, User := s5, Command := s6 } := by
  simp only [parseLine, hs, parseSectionVar, h0, h1, h2, h3, h4]

/-- Inversion of a successful `parseLine`: seven tokens, five accepted sections. -/
theorem parseLine_ok_inv (line : Str) (e : CronEntry) (h : parseLine line = .ok e) :
    ∃ s0 s1 s2 s3 s4 s5 s6 c0 c1 c2 c3 c4,
      regexWhitespaceSplit line 7 = [s0, s1, s2, s3, s4, s5, s6] ∧
      parseSection s0 = .ok c0 ∧ parseSection s1 = .ok c1 ∧ parseSection s2 = .ok c2 ∧
      parseSection s3 = .ok c3 ∧ parseSection s4 = .ok c4 ∧
      e = { Minute := some c0, Hour := some c1, Day := some c2, Month := some c3,
            DayOfWeek := some c4, User := s5, Command := s6 } := by
  unfold parseLine at h
  split at h
  · rename_i s0 s1 s2 s3 s4 s5 s6 hs
    refine ⟨s0, s1, s2, s3, s4, s5, s6, ?_⟩
    unfold parseSectionVar at h
    cases h0 : parseSection s0 with
    | error err => simp [h0] at h
    | ok c0 =>
    cases h1 : parseSection s1 with
    | error err => simp [h0, h1] at h
    | ok c1 =>
    cases h2 : parseSection s2 with
    | error err => simp [h0, h1, h2] at h
    | ok c2 =>
    cases h3 : parseSection s3 with
    | error err => simp [h0, h1, h2, h3] at h
    | ok c3 =>
    cases h4 : parseSection s4 with
    | error err => simp [h0, h1, h2, h3, h4] at h
    | ok c4 =>
    simp only [h0, h1, h2, h3, h4, Except.ok.injEq] at h
    exact ⟨c0, c1, c2, c3, c4, hs, rfl, rfl, rfl, rfl, rfl, h.symm⟩
  · simp at h

/-- The first piece of `regexWhitespaceSplit` keeps a leading non-blank character. -/
theorem regexWhitespaceSplit_head (c : Char) (rest : Str) (n : Nat) (s0 : Str) (tl : List Str)
    (hc : isBlank c = false) (h : regexWhitespaceSplit (c :: rest) n = s0 :: tl) :
    ∃ a, s0 = c :: a := by
  match n, h with
  | 1, h =>
    simp only [regexWhitespaceSplit, List.cons.injEq] at h
    exact ⟨rest, h.1.symm⟩
  | n + 2, h =>
    simp only [regexWhitespaceSplit, CutBlanks, hc, Bool.false_eq_true, if_false] at h
    cases hcb : CutBlanks rest with
    | none =>
      simp only [hcb, Option.map_none', List.cons.injEq] at h
      exact ⟨rest, h.1.symm⟩
    | some p =>
      simp only [hcb, Option.map_some', List.cons.injEq] at h
      exact ⟨p.1, h.1.symm⟩

/-- Every character of a token accepted by `parseSection` is a digit, `*` or `/`. -/
theorem parseSection_ok_chars (t : Str) (r : CronSection) (h : parseSection t = .ok r) :
    ∀ x ∈ t, x.isDigit = true ∨ x = '*' ∨ x = '/' := by
  rcases (parseSection_ok_iff t r).1 h with ⟨-, h2, -⟩ | ⟨b, s, rfl, ⟨-, hb⟩, ⟨-, hs⟩, -⟩
  · intro x hx
    rcases h2 x hx with hd | hd
    · exact Or.inl hd
    · exact Or.inr (Or.inl hd)
  · intro x hx
    simp only [List.mem_append, List.mem_cons] at hx
    rcases hx with hx | rfl | hx
    · rcases hb x hx with hd | hd
      · exact Or.inl hd
      · exact Or.inr (Or.inl hd)
    · exact Or.inr (Or.inr rfl)
    · exact Or.inl (hs x hx)

/-- A line beginning with `=` is not a job entry. -/
theorem parseLine_eq_sign (rest : Str) (e : CronEntry) : parseLine ('=' :: rest) ≠ .ok e := by
  intro h
  obtain ⟨s0, s1, s2, s3, s4, s5, s6, c0, c1, c2, c3, c4, hs, h0, -⟩ :=
    parseLine_ok_inv _ _ h
  obtain ⟨a, rfl⟩ := regexWhitespaceSplit_head '=' rest 7 s0 _ (by decide) hs
  have := parseSection_ok_chars _ _ h0 '=' (List.mem_cons_self _ _)
  revert this
  decide

/-- The method `ParseLine` when the line is not a job entry. -/
theorem ParseLine_of_not_entry (cp : CronParser) (line : Str)
    (h : ∀ e, parseLine line ≠ .ok e) : ParseLine cp line = ParseEnvironment cp line := by
  unfold ParseLine ParseEntry
  cases hp : parseLine line with
  | error err => rfl
  | ok e => exact absurd hp (h e)

/-- The method `ParseLine` when the line is a job entry. -/
theorem ParseLine_of_entry (cp : CronParser) (line : Str) (e : CronEntry)
    (h : parseLine line = .ok e) :
    ParseLine cp line = (.nil, { cp with CronTab := cp.CronTab ++ [e] }) := by
  simp only [ParseLine, ParseEntry, h]

/-- The function `parseEnvironment` on a line with a first `=`. -/
theorem parseEnvironment_append (key value : Str) (hk : '=' ∉ key) :
    parseEnvironment (key ++ '=' :: value) =
      if key = [] then .error (.missingKey (key ++ '=' :: value)) else .ok (key, value) := by
  simp only [parseEnvironment, SplitN, Cut_append _ _ _ hk]

/-- The function `parseEnvironment` on a line without `=`. -/
theorem parseEnvironment_no_eq (line : Str) (hk : '=' ∉ line) :
    parseEnvironment line = if line = [] then .error (.missingKey line) else .panic := by
  simp only [parseEnvironment, SplitN, (Cut_eq_none _ _).2 hk]

/-- The loop of `ParseCronTab` skips an ignored line. -/
theorem ParseCronTabLoop_ignored (cp : CronParser) (l : Str) (rest : List Str)
    (h : isIgnored (TrimLeft l) = true) :
    ParseCronTabLoop cp (l :: rest) = ParseCronTabLoop cp rest := by
  simp only [ParseCronTabLoop, h, if_true]

/-- The loop of `ParseCronTab` skips a run of ignored lines. -/
theorem ParseCronTabLoop_ignored_append (cp : CronParser) (pre rest : List Str)
    (h : ∀ x ∈ pre, isIgnored (TrimLeft x) = true) :
    ParseCronTabLoop cp (pre ++ rest) = ParseCronTabLoop cp rest := by
  induction pre with
  | nil => rfl
  | cons x xs ih =>
    rw [List.cons_append, ParseCronTabLoop_ignored cp x _ (h x (List.mem_cons_self _ _))]
    exact ih (fun y hy => h y (List.mem_cons_of_mem _ hy))

/-- The loop of `ParseCronTab` on a line that is not ignored. -/
theorem ParseCronTabLoop_cons (cp : CronParser) (l : Str) (rest : List Str)
    (h : isIgnored (TrimLeft l) = false) :
    ParseCronTabLoop cp (l :: rest) =
      match ParseLine cp (TrimLeft l) with
      | (.nil, cp1) => ParseCronTabLoop cp1 rest
      | (r, cp1) => (r, cp1) := by
  simp only [ParseCronTabLoop, h, Bool.false_eq_true, if_false]

/-- The method `ParseLine` on a line beginning with `=`. -/
theorem ParseLine_eq_sign (cp : CronParser) (rest : Str) :
    ParseLine cp ('=' :: rest) = (.error (.missingKey ('=' :: rest)), cp) := by
  rw [ParseLine_of_not_entry cp _ (fun e => parseLine_eq_sign rest e)]
  have := parseEnvironment_append [] rest (by simp)
  simp only [List.nil_append, if_true] at this
  simp only [ParseEnvironment, this]

/-- A successful `parseEnvironment` cuts the line at its first `=`, the text before
it being non-empty. -/
theorem parseEnvironment_ok_iff (line key value : Str) :
    parseEnvironment line = .ok (key, value) ↔ Cut '=' line = some (key, value) ∧ key ≠ [] := by
  unfold parseEnvironment
  cases hc : Cut '=' line with
  | none =>
    by_cases h : line = []
    · subst h
      simp [SplitN, Cut]
    · simp [SplitN, hc, h]
  | some p =>
    obtain ⟨a, b⟩ := p
    by_cases h : a = []
    · subst h
      simp only [SplitN, hc, if_true, Option.some.injEq, Prod.mk.injEq, ne_eq]
      constructor
      · intro h
        cases h
      · rintro ⟨⟨rfl, -⟩, h⟩
        exact absurd rfl h
    · simp only [SplitN, hc, h, if_false, Res.ok.injEq, Prod.mk.injEq, Option.some.injEq, ne_eq]
      constructor
      · rintro ⟨rfl, rfl⟩
        exact ⟨⟨rfl, rfl⟩, h⟩
      · rintro ⟨⟨rfl, rfl⟩, -⟩
        exact ⟨rfl, rfl⟩

/-- A step of the loop of `ParseCronTab` that ends in nil: the line is ignored, or it
is a job entry and is appended, or it is an assignment and is stored. -/
theorem ParseCronTabLoop_nil_cons (cp cp' : CronParser) (l : Str) (rest : List Str)
    (h : ParseCronTabLoop cp (l :: rest) = (.nil, cp')) :
    (isIgnored (TrimLeft l) = true ∧ ParseCronTabLoop cp rest = (.nil, cp')) ∨
    (isIgnored (TrimLeft l) = false ∧ ∃ e, parseLine (TrimLeft l) = .ok e ∧
      ParseCronTabLoop { cp with CronTab := cp.CronTab ++ [e] } rest = (.nil, cp')) ∨
    (isIgnored (TrimLeft l) = false ∧ ∃ err key value,
      parseLine (TrimLeft l) = .error err ∧ Cut '=' (TrimLeft l) = some (key, value) ∧
      key ≠ [] ∧
      ParseCronTabLoop { cp with Environment := mapSet cp.Environment key value } rest =
        (.nil, cp')) := by
  cases hi : isIgnored (TrimLeft l) with
  | true =>
    rw [ParseCronTabLoop_ignored cp l rest hi] at h
    exact Or.inl ⟨rfl, h⟩
  | false =>
    rw [ParseCronTabLoop_cons cp l rest hi] at h
    cases hp : parseLine (TrimLeft l) with
    | ok e =>
      rw [ParseLine_of_entry cp _ e hp] at h
      exact Or.inr (Or.inl ⟨rfl, e, rfl, h⟩)
    | error err =>
      rw [ParseLine_of_not_entry cp _ (fun e he => by rw [hp] at he; cases he)] at h
      unfold ParseEnvironment at h
      cases hpe : parseEnvironment (TrimLeft l) with
      | panic => rw [hpe] at h; simp at h
      | error e2 => rw [hpe] at h; simp at h
      | ok kv =>
        obtain ⟨key, value⟩ := kv
        rw [hpe] at h
        obtain ⟨hc, hk⟩ := (parseEnvironment_ok_iff _ _ _).1 hpe
        exact Or.inr (Or.inr ⟨rfl, err, key, value, rfl, hc, hk, h⟩)

/-- The entries left by a loop of `ParseCronTab` that ends in nil. -/
theorem ParseCronTabLoop_nil_CronTab (lines : List Str) (cp cp' : CronParser)
    (h : ParseCronTabLoop cp lines = (.nil, cp')) :
    cp'.CronTab = cp.CronTab ++
      ((lines.map TrimLeft).filter (fun l => !isIgnored l)).filterMap
        (fun l => (parseLine l).toOption) := by
  induction lines generalizing cp with
  | nil =>
    simp only [ParseCronTabLoop, Prod.mk.injEq, true_and] at h
    subst h
    simp
  | cons l rest ih =>
    rcases ParseCronTabLoop_nil_cons cp cp' l rest h with
      ⟨hi, h1⟩ | ⟨hi, e, hp, h1⟩ | ⟨hi, err, key, value, hp, -, -, h1⟩
    · rw [ih cp h1]
      simp [hi]
    · rw [ih _ h1]
      simp [hi, hp, Except.toOption]
    · rw [ih _ h1]
      simp [hi, hp, Except.toOption]

/-- The last value of `k` in a list of assignments with one more in front. -/
theorem lastValue_cons (k key value : Str) (A : List (Str × Str)) (m : Str → Option Str) :
    (((((key, value) :: A).filter (fun p => decide (p.1 = k))).getLast?.map Prod.snd).or (m k)) =
      (((A.filter (fun p => decide (p.1 = k))).getLast?.map Prod.snd).or
        (mapSet m key value k)) := by
  by_cases hk : key = k
  · subst hk
    simp only [List.filter_cons, decide_True, if_true, List.getLast?_cons, mapSet]
    generalize (List.filter (fun p => decide (p.1 = key)) A).getLast? = o
    cases o <;> simp
  · have hk2 : ¬ k = key := fun h => hk h.symm
    simp [List.filter_cons, hk, hk2, mapSet]

/-- The value of a key left by a loop of `ParseCronTab` that ends in nil: that of the
last assignment to the key, else the value before the loop. -/
theorem ParseCronTabLoop_nil_Environment (k : Str) (lines : List Str) (cp cp' : CronParser)
    (h : ParseCronTabLoop cp lines = (.nil, cp')) :
    cp'.Environment k =
      ((((((lines.map TrimLeft).filter (fun l => !isIgnored l)).filter
          (fun l => (parseLine l).toOption.isNone)).filterMap (Cut '=')).filter
          (fun p => decide (p.1 = k))).getLast?.map Prod.snd).or (cp.Environment k) := by
  induction lines generalizing cp with
  | nil =>
    simp only [ParseCronTabLoop, Prod.mk.injEq, true_and] at h
    subst h
    simp
  | cons l rest ih =>
    rcases ParseCronTabLoop_nil_cons cp cp' l rest h with
      ⟨hi, h1⟩ | ⟨hi, e, hp, h1⟩ | ⟨hi, err, key, value, hp, hc, -, h1⟩
    · rw [ih cp h1]
      simp [hi]
    · rw [ih _ h1]
      simp [hi, hp, Except.toOption]
    · rw [ih _ h1]
      have hcons : List.filterMap (Cut '=') (List.filter (fun l => (parseLine l).toOption.isNone)
            (List.filter (fun l => !isIgnored l) (List.map TrimLeft (l :: rest)))) =
          (key, value) :: List.filterMap (Cut '=')
            (List.filter (fun l => (parseLine l).toOption.isNone)
              (List.filter (fun l => !isIgnored l) (List.map TrimLeft rest))) := by
        simp [hi, hp, hc, Except.toOption]
      rw [hcons]
      exact (lastValue_cons k key value _ cp.Environment).symm

/-- The function `Split`, by cases on the first separator. -/
theorem Split_eq (sep : Char) (s : Str) :
    Split sep s =
      match Cut sep s with
      | none => [s]
      | some (a, b) => a :: Split sep b := by
  cases hc : Cut sep s with
  | none =>
    have h0 : s.count sep = 0 := List.count_eq_zero_of_not_mem ((Cut_eq_none sep s).1 hc)
    simp only [Split, h0, SplitN]
  | some p =>
    obtain ⟨a, b⟩ := p
    obtain ⟨rfl, ha⟩ := (Cut_eq_some sep s a b).1 hc
    have hcount : (a ++ sep :: b).count sep + 1 = b.count sep + 2 := by
      simp [List.count_append, List.count_eq_zero_of_not_mem ha]
    simp only [Split, hcount, SplitN, hc]

theorem Split_of_not_mem (sep : Char) (s : Str) (h : sep ∉ s) : Split sep s = [s] := by
  rw [Split_eq, (Cut_eq_none sep s).2 h]

/-- The lines of `a`, a separator and `b` are the lines of `a` then those of `b`. -/
theorem Split_append (sep : Char) (b : Str) (n : Nat) :
    ∀ a : Str, a.length ≤ n → Split sep (a ++ sep :: b) = Split sep a ++ Split sep b := by
  induction n with
  | zero =>
    intro a ha
    have : a = [] := List.length_eq_zero.1 (Nat.le_zero.1 ha)
    subst this
    rw [Split_eq sep ([] ++ sep :: b), Cut_append sep [] b (by simp), Split_eq sep []]
    rfl
  | succ n ih =>
    intro a ha
    cases hc : Cut sep a with
    | none =>
      have hn := (Cut_eq_none sep a).1 hc
      rw [Split_eq sep (a ++ sep :: b), Cut_append sep a b hn, Split_of_not_mem sep a hn]
      rfl
    | some p =>
      obtain ⟨a1, a2⟩ := p
      obtain ⟨rfl, h1⟩ := (Cut_eq_some sep a a1 a2).1 hc
      have hlen : a2.length ≤ n := by
        simp only [List.length_append, List.length_cons] at ha
        omega
      have e1 : a1 ++ sep :: a2 ++ sep :: b = a1 ++ sep :: (a2 ++ sep :: b) := by simp
      rw [e1, Split_eq sep (a1 ++ sep :: (a2 ++ sep :: b)), Cut_append sep a1 _ h1,
        Split_eq sep (a1 ++ sep :: a2), Cut_append sep a1 _ h1]
      simp only [List.cons_append, ih a2 hlen]

/-- The loop of `ParseCronTab` over two lists of lines in a row. -/
theorem ParseCronTabLoop_append (A B : List Str) (cp : CronParser) :
    ParseCronTabLoop cp (A ++ B) =
      match ParseCronTabLoop cp A with
      | (.nil, cp1) => ParseCronTabLoop cp1 B
      | (r, cp1) => (r, cp1) := by
  induction A generalizing cp with
  | nil => rfl
  | cons l rest ih =>
    cases hi : isIgnored (TrimLeft l) with
    | true =>
      rw [List.cons_append, ParseCronTabLoop_ignored cp l _ hi,
        ParseCronTabLoop_ignored cp l _ hi]
      exact ih cp
    | false =>
      rw [List.cons_append, ParseCronTabLoop_cons cp l _ hi, ParseCronTabLoop_cons cp l _ hi]
      rcases hpl : ParseLine cp (TrimLeft l) with ⟨r, cp1⟩
      cases r with
      | nil => exact ih cp1
      | error e => rfl
      | panic => rfl

/-- A loop of `ParseCronTab` that returns an error stopped at its first failing line,
with the state reached by the lines before it. -/
theorem ParseCronTabLoop_error (lines : List Str) (cp cp' : CronParser) (e : Err)
    (h : ParseCronTabLoop cp lines = (.error e, cp')) :
    ∃ pre l post, lines = pre ++ l :: post ∧ ParseCronTabLoop cp pre = (.nil, cp') ∧
      isIgnored (TrimLeft l) = false ∧ ParseLine cp' (TrimLeft l) = (.error e, cp') := by
  induction lines generalizing cp with
  | nil => simp [ParseCronTabLoop] at h
  | cons l rest ih =>
    cases hi : isIgnored (TrimLeft l) with
    | true =>
      rw [ParseCronTabLoop_ignored cp l _ hi] at h
      obtain ⟨pre, l2, post, rfl, h1, h2, h3⟩ := ih cp h
      refine ⟨l :: pre, l2, post, rfl, ?_, h2, h3⟩
      rw [ParseCronTabLoop_ignored cp l _ hi]
      exact h1
    | false =>
      rw [ParseCronTabLoop_cons cp l _ hi] at h
      rcases hpl : ParseLine cp (TrimLeft l) with ⟨r, cp1⟩
      rw [hpl] at h
      cases r with
      | nil =>
        obtain ⟨pre, l2, post, rfl, h1, h2, h3⟩ := ih cp1 h
        refine ⟨l :: pre, l2, post, rfl, ?_, h2, h3⟩
        rw [ParseCronTabLoop_cons cp l _ hi, hpl]
        exact h1
      | panic => simp at h
      | error e2 =>
        simp only [Prod.mk.injEq, Ret.error.injEq] at h
        obtain ⟨rfl, rfl⟩ := h
        have hcp : cp1 = cp := by
          cases hp : parseLine (TrimLeft l) with
          | ok en =>
            rw [ParseLine_of_entry cp _ en hp] at hpl
            simp at hpl
          | error err =>
            rw [ParseLine_of_not_entry cp _ (fun en he => by rw [hp] at he; cases he)] at hpl
            unfold ParseEnvironment at hpl
            cases hpe : parseEnvironment (TrimLeft l) with
            | panic => rw [hpe] at hpl; simp at hpl
            | error e3 =>
              rw [hpe] at hpl
              simp only [Prod.mk.injEq] at hpl
              exact hpl.2.symm
            | ok kv => rw [hpe] at hpl; simp at hpl
        subst hcp
        exact ⟨[], l, rest, rfl, rfl, hi, hpl⟩

/-- The function `parseLine` on a line that splits into seven tokens: the sections
are parsed in order and the first failure is returned. -/
theorem parseLine_seven (line s0 s1 s2 s3 s4 s5 s6 : Str)
    (hs : regexWhitespaceSplit line 7 = [s0, s1, s2, s3, s4, s5, s6]) :
    parseLine line =
      match parseSection s0 with
      | .error e => .error (.minuteInvalid s0 e)
      | .ok c0 =>
      match parseSection s1 with
      | .error e => .error (.minuteInvalid s1 e)
      | .ok c1 =>
      match parseSection s2 with
      | .error e => .error (.minuteInvalid s2 e)
      | .ok c2 =>
      match parseSection s3 with
      | .error e => .error (.minuteInvalid s3 e)
      | .ok c3 =>
      match parseSection s4 with
      | .error e => .error (.minuteInvalid s4 e)
      | .ok c4 =>
        .ok { Minute := some c0, Hour := some c1, Day := some c2, Month := some c3,
              DayOfWeek := some c4, User := s5, Command := s6 } := by
  simp only [parseLine, hs, parseSectionVar]
  cases parseSection s0 <;> simp only []
  cases parseSection s1 <;> simp only []
  cases parseSection s2 <;> simp only []
  cases parseSection s3 <;> simp only []
  cases parseSection s4 <;> simp only []

/-- The function `parseLine` on a line that does not split into seven tokens. -/
theorem parseLine_short (line : Str) (h : (regexWhitespaceSplit line 7).length ≠ 7) :
    parseLine line = .error (.notEnoughComponents line) := by
  unfold parseLine
  split
  · rename_i hs
    rw [hs] at h
    exact absurd rfl h
  · rfl

/-- The function `parseLine` never reports a token count on seven tokens. -/
theorem parseLine_seven_ne (line : Str) (h : (regexWhitespaceSplit line 7).length = 7) :
    parseLine line ≠ .error (.notEnoughComponents line) := by
  match hs : regexWhitespaceSplit line 7, h with
  | [s0, s1, s2, s3, s4, s5, s6], _ =>
    rw [parseLine_seven line s0 s1 s2 s3 s4 s5 s6 hs]
    cases parseSection s0 <;> simp only [] <;> try (intro hh; cases hh)
    cases parseSection s1 <;> simp only [] <;> try (intro hh; cases hh)
    cases parseSection s2 <;> simp only [] <;> try (intro hh; cases hh)
    cases parseSection s3 <;> simp only [] <;> try (intro hh; cases hh)
    cases parseSection s4 <;> simp only [] <;> intro hh <;> cases hh

theorem regexWhitespaceSplit_length_le (n : Nat) :
    ∀ s : Str, (regexWhitespaceSplit s n).length ≤ n := by
  induction n using Nat.strong_induction_on with
  | _ n ih =>
    intro s
    match n with
    | 0 => simp [regexWhitespaceSplit]
    | 1 => simp [regexWhitespaceSplit]
    | n + 2 =>
      simp only [regexWhitespaceSplit]
      cases CutBlanks s with
      | none => simp
      | some p =>
        have := ih (n + 1) (by omega) p.2
        simp only [List.length_cons]
        omega

theorem blankRunsFrom_true_eq (s : Str) :
    blankRunsFrom true s = blankRunsFrom false (s.dropWhile isBlank) := by
  induction s with
  | nil => rfl
  | cons c cs ih =>
    cases hc : isBlank c with
    | true => simp [blankRunsFrom, List.dropWhile, hc, ih]
    | false => simp [blankRunsFrom, List.dropWhile, hc]

theorem blankRuns_of_CutBlanks_none (s : Str) (h : CutBlanks s = none) : blankRuns s = 0 := by
  unfold blankRuns
  induction s with
  | nil => rfl
  | cons c cs ih =>
    cases hc : isBlank c with
    | true => simp [CutBlanks, hc] at h
    | false =>
      simp only [CutBlanks, hc, Bool.false_eq_true, if_false, Option.map_eq_none'] at h
      simp [blankRunsFrom, hc, ih h]

theorem blankRuns_of_CutBlanks_some (s a b : Str) (h : CutBlanks s = some (a, b)) :
    blankRuns s = blankRuns b + 1 := by
  unfold blankRuns
  induction s generalizing a with
  | nil => simp [CutBlanks] at h
  | cons c cs ih =>
    cases hc : isBlank c with
    | true =>
      simp only [CutBlanks, hc, if_true, Option.some.injEq, Prod.mk.injEq] at h
      obtain ⟨-, rfl⟩ := h
      simp [blankRunsFrom, hc, blankRunsFrom_true_eq]
      omega
    | false =>
      simp only [CutBlanks, hc, Bool.false_eq_true, if_false, Option.map_eq_some'] at h
      obtain ⟨⟨a1, b1⟩, hp, heq⟩ := h
      simp only [Prod.mk.injEq] at heq
      obtain ⟨-, rfl⟩ := heq
      simp [blankRunsFrom, hc, ih a1 hp]

/-- The number of pieces of `regexWhitespaceSplit` with limit `n + 1`. -/
theorem regexWhitespaceSplit_length (n : Nat) :
    ∀ s : Str, (regexWhitespaceSplit s (n + 1)).length = min (n + 1) (blankRuns s + 1) := by
  induction n with
  | zero =>
    intro s
    simp [regexWhitespaceSplit]
  | succ n ih =>
    intro s
    simp only [regexWhitespaceSplit]
    cases hc : CutBlanks s with
    | none => simp [blankRuns_of_CutBlanks_none s hc]
    | some p =>
      obtain ⟨a, b⟩ := p
      simp only [List.length_cons, ih b, blankRuns_of_CutBlanks_some s a b hc]
      omega

/-- The only error of `parseEnvironment` is the missing key, quoting the line. -/
theorem parseEnvironment_error (line : Str) (e : Err) (h : parseEnvironment line = .error e) :
    e = .missingKey line := by
  unfold parseEnvironment at h
  split at h
  · cases h
  · split at h
    · simp only [Res.error.injEq] at h
      exact h.symm
    · split at h <;> cases h

/-- An error returned by `ParseLine` is the missing key quoting the line, and the
state is unchanged. -/
theorem ParseLine_error (cp cp' : CronParser) (line : Str) (e : Err)
    (h : ParseLine cp line = (.error e, cp')) : e = .missingKey line ∧ cp' = cp := by
  cases hp : parseLine line with
  | ok en =>
    rw [ParseLine_of_entry cp _ en hp] at h
    simp at h
  | error err =>
    rw [ParseLine_of_not_entry cp _ (fun en he => by rw [hp] at he; cases he)] at h
    unfold ParseEnvironment at h
    cases hpe : parseEnvironment line with
    | panic => rw [hpe] at h; simp at h
    | ok kv => rw [hpe] at h; simp at h
    | error e3 =>
      rw [hpe] at h
      simp only [Prod.mk.injEq, Ret.error.injEq] at h
      obtain ⟨rfl, rfl⟩ := h
      exact ⟨parseEnvironment_error line e3 hpe, rfl⟩

/-- On seven tokens, `parseLine` returns the error of the leftmost rejected one of the
first five. -/
theorem parseLine_first_error (line : Str) (toks : List Str) (i : Nat) (err : Err)
    (hs : regexWhitespaceSplit line 7 = toks) (hlen : toks.length = 7) (hi : i < 5)
    (hok : ∀ j, j < i → ∃ c, parseSection (toks.getD j []) = .ok c)
    (herr : parseSection (toks.getD i []) = .error err) :
    parseLine line = .error (.minuteInvalid (toks.getD i []) err) := by
  match toks, hlen with
  | [s0, s1, s2, s3, s4, s5, s6], _ =>
    rw [parseLine_seven line s0 s1 s2 s3 s4 s5 s6 hs]
    interval_cases i
    · have e0 : parseSection s0 = .error err := herr
      rw [e0]
      rfl
    · obtain ⟨c0, h0⟩ := hok 0 (by omega)
      have k0 : parseSection s0 = .ok c0 := h0
      have e1 : parseSection s1 = .error err := herr
      rw [k0, e1]
      rfl
    · obtain ⟨c0, h0⟩ := hok 0 (by omega)
      obtain ⟨c1, h1⟩ := hok 1 (by omega)
      have k0 : parseSection s0 = .ok c0 := h0
      have k1 : parseSection s1 = .ok c1 := h1
      have e2 : parseSection s2 = .error err := herr
      rw [k0, k1, e2]
      rfl
    · obtain ⟨c0, h0⟩ := hok 0 (by omega)
      obtain ⟨c1, h1⟩ := hok 1 (by omega)
      obtain ⟨c2, h2⟩ := hok 2 (by omega)
      have k0 : parseSection s0 = .ok c0 := h0
      have k1 : parseSection s1 = .ok c1 := h1
      have k2 : parseSection s2 = .ok c2 := h2
      have e3 : parseSection s3 = .error err := herr
      rw [k0, k1, k2, e3]
      rfl
    · obtain ⟨c0, h0⟩ := hok 0 (by omega)
      obtain ⟨c1, h1⟩ := hok 1 (by omega)
      obtain ⟨c2, h2⟩ := hok 2 (by omega)
      obtain ⟨c3, h3⟩ := hok 3 (by omega)
      have k0 : parseSection s0 = .ok c0 := h0
      have k1 : parseSection s1 = .ok c1 := h1
      have k2 : parseSection s2 = .ok c2 := h2
      have k3 : parseSection s3 = .ok c3 := h3
      have e4 : parseSection s4 = .error err := herr
      rw [k0, k1, k2, k3, e4]
      rfl

theorem SectionOk_of_parseSection (t : Str) (c : CronSection) (h : parseSection t = .ok c) :
    SectionOk c := by
  rcases (parseSection_ok_iff t c).1 h with ⟨h1, h2, rfl⟩ | ⟨b, s, -, ⟨hb0, hb⟩, ⟨-, hs⟩, rfl⟩
  · exact ⟨h1, h2, by simp⟩
  · exact ⟨hb0, hb, hs⟩

theorem EntryOk_of_parseLine (line : Str) (e : CronEntry) (h : parseLine line = .ok e) :
    EntryOk e := by
  obtain ⟨s0, s1, s2, s3, s4, s5, s6, c0, c1, c2, c3, c4, -, h0, h1, h2, h3, h4, rfl⟩ :=
    parseLine_ok_inv line e h
  intro o ho
  simp only [List.mem_cons, List.mem_singleton, List.not_mem_nil, or_false] at ho
  rcases ho with rfl | rfl | rfl | rfl | rfl
  · exact ⟨c0, rfl, SectionOk_of_parseSection _ _ h0⟩
  · exact ⟨c1, rfl, SectionOk_of_parseSection _ _ h1⟩
  · exact ⟨c2, rfl, SectionOk_of_parseSection _ _ h2⟩
  · exact ⟨c3, rfl, SectionOk_of_parseSection _ _ h3⟩
  · exact ⟨c4, rfl, SectionOk_of_parseSection _ _ h4⟩

theorem Invariant_NewCronParser : Invariant NewCronParser := by
  refine ⟨fun e he => ?_, fun k v h => ?_⟩
  · simp [NewCronParser] at he
  · simp [NewCronParser] at h

theorem Invariant_ParseEntry (cp : CronParser) (line : Str) (h : Invariant cp) :
    Invariant (ParseEntry cp line).2 := by
  unfold ParseEntry
  cases hp : parseLine line with
  | error err => exact h
  | ok e =>
    refine ⟨fun e2 he2 => ?_, h.2⟩
    simp only [List.mem_append, List.mem_singleton] at he2
    rcases he2 with he2 | rfl
    · exact h.1 e2 he2
    · exact EntryOk_of_parseLine line _ hp

theorem Invariant_ParseEnvironment (cp : CronParser) (line : Str) (h : Invariant cp) :
    Invariant (ParseEnvironment cp line).2 := by
  unfold ParseEnvironment
  cases hp : parseEnvironment line with
  | panic => exact h
  | error err => exact h
  | ok kv =>
    obtain ⟨key, value⟩ := kv
    obtain ⟨-, hk⟩ := (parseEnvironment_ok_iff line key value).1 hp
    refine ⟨h.1, fun k v hkv => ?_⟩
    simp only [mapSet] at hkv
    by_cases hkk : k = key
    · subst hkk
      exact hk
    · rw [if_neg hkk] at hkv
      exact h.2 k v hkv

theorem Invariant_ParseLine (cp : CronParser) (line : Str) (h : Invariant cp) :
    Invariant (ParseLine cp line).2 := by
  cases hp : parseLine line with
  | ok e =>
    have := Invariant_ParseEntry cp line h
    rw [ParseLine_of_entry cp line e hp]
    simpa only [ParseEntry, hp] using this
  | error err =>
    rw [ParseLine_of_not_entry cp line (fun en he => by rw [hp] at he; cases he)]
    exact Invariant_ParseEnvironment cp line h

theorem Invariant_ParseCronTabLoop (lines : List Str) (cp : CronParser) (h : Invariant cp) :
    Invariant (ParseCronTabLoop cp lines).2 := by
  induction lines generalizing cp with
  | nil => exact h
  | cons l rest ih =>
    cases hi : isIgnored (TrimLeft l) with
    | true =>
      rw [ParseCronTabLoop_ignored cp l rest hi]
      exact ih cp h
    | false =>
      rw [ParseCronTabLoop_cons cp l rest hi]
      have hl := Invariant_ParseLine cp (TrimLeft l) h
      rcases hpl : ParseLine cp (TrimLeft l) with ⟨r, cp1⟩
      rw [hpl] at hl
      cases r with
      | nil => exact ih cp1 hl
      | error e => exact hl
      | panic => exact hl

theorem Invariant_runCalls (calls : List Call) (cp : CronParser) (h : Invariant cp) :
    Invariant (runCalls cp calls) := by
  induction calls generalizing cp with
  | nil => exact h
  | cons c rest ih =>
    apply ih
    cases c with
    | cronTab body => exact Invariant_ParseCronTabLoop _ cp h
    | line l => exact Invariant_ParseLine cp l h
    | entry l => exact Invariant_ParseEntry cp l h
    | environment l => exact Invariant_ParseEnvironment cp l h

theorem CutBlanks_of_no_blank (u : Str) (hu : ∀ x ∈ u, isBlank x = false) :
    CutBlanks u = none := by
  induction u with
  | nil => rfl
  | cons c cs ih =>
    have hc : isBlank c = false := hu c (List.mem_cons_self _ _)
    simp only [CutBlanks, hc, Bool.false_eq_true, if_false,
      ih (fun y hy => hu y (List.mem_cons_of_mem _ hy)), Option.map_none']

theorem head_dropWhile_isBlank (s : Str) :
    ∀ x, (s.dropWhile isBlank).head? = some x → isBlank x = false := by
  induction s with
  | nil => simp
  | cons c cs ih =>
    cases hc : isBlank c with
    | true =>
      simp only [List.dropWhile, hc]
      exact ih
    | false =>
      intro x hx
      simp only [List.dropWhile, hc, List.head?_cons, Option.some.injEq] at hx
      subst hx
      exact hc

/-- The text before the first run of blanks holds no blank, the text after the run
does not start with a blank, and the text before is not empty unless the string
starts with a blank. -/
theorem CutBlanks_some_props (s a b : Str) (h : CutBlanks s = some (a, b)) :
    (∀ x ∈ a, isBlank x = false) ∧ (∀ x, b.head? = some x → isBlank x = false) ∧
    ((∀ x, s.head? = some x → isBlank x = false) → a ≠ []) := by
  induction s generalizing a with
  | nil => simp [CutBlanks] at h
  | cons c cs ih =>
    cases hc : isBlank c with
    | true =>
      simp only [CutBlanks, hc, if_true, Option.some.injEq, Prod.mk.injEq] at h
      obtain ⟨rfl, rfl⟩ := h
      refine ⟨by simp, head_dropWhile_isBlank cs, fun hh => ?_⟩
      have := hh c rfl
      rw [hc] at this
      cases this
    | false =>
      simp only [CutBlanks, hc, Bool.false_eq_true, if_false, Option.map_eq_some'] at h
      obtain ⟨⟨a1, b1⟩, hp, heq⟩ := h
      simp only [Prod.mk.injEq] at heq
      obtain ⟨rfl, rfl⟩ := heq
      obtain ⟨h1, h2, -⟩ := ih a1 hp
      refine ⟨fun x hx => ?_, h2, fun _ => by simp⟩
      simp only [List.mem_cons] at hx
      rcases hx with rfl | hx
      · exact hc
      · exact h1 x hx

/-- A split with at least two pieces starts with a cut at the first run of blanks. -/
theorem regexWhitespaceSplit_cons_inv (s a t : Str) (ts : List Str) (n : Nat)
    (h : regexWhitespaceSplit s (n + 2) = a :: t :: ts) :
    ∃ b, CutBlanks s = some (a, b) ∧ regexWhitespaceSplit b (n + 1) = t :: ts := by
  simp only [regexWhitespaceSplit] at h
  cases hc : CutBlanks s with
  | none =>
    rw [hc] at h
    simp at h
  | some p =>
    obtain ⟨a1, b1⟩ := p
    rw [hc] at h
    simp only [List.cons.injEq] at h
    obtain ⟨rfl, h2⟩ := h
    exact ⟨b1, rfl, h2⟩

/-- The sixth of seven tokens is not empty and holds no blank. -/
theorem regexWhitespaceSplit_sixth (line s0 s1 s2 s3 s4 s5 s6 : Str)
    (h : regexWhitespaceSplit line 7 = [s0, s1, s2, s3, s4, s5, s6]) :
    s5 ≠ [] ∧ ∀ x ∈ s5, isBlank x = false := by
  obtain ⟨b0, -, h0⟩ := regexWhitespaceSplit_cons_inv line s0 s1 _ 5 h
  obtain ⟨b1, -, h1⟩ := regexWhitespaceSplit_cons_inv b0 s1 s2 _ 4 h0
  obtain ⟨b2, -, h2⟩ := regexWhitespaceSplit_cons_inv b1 s2 s3 _ 3 h1
  obtain ⟨b3, -, h3⟩ := regexWhitespaceSplit_cons_inv b2 s3 s4 _ 2 h2
  obtain ⟨b4, c4, h4⟩ := regexWhitespaceSplit_cons_inv b3 s4 s5 _ 1 h3
  obtain ⟨b5, c5, -⟩ := regexWhitespaceSplit_cons_inv b4 s5 s6 _ 0 h4
  obtain ⟨-, k4, -⟩ := CutBlanks_some_props b3 s4 b4 c4
  obtain ⟨k5, -, k6⟩ := CutBlanks_some_props b4 s5 b5 c5
  exact ⟨k6 k4, k5⟩

/-- The split of six tokens separated by runs of blanks, followed by a run of blanks
and a remainder. -/
theorem regexWhitespaceSplit_seven (t1 t2 t3 t4 t5 u c w1 w2 w3 w4 w5 w6 : Str)
    (k1 : ∀ x ∈ t1, isBlank x = false)
    (n2 : t2 ≠ []) (k2 : ∀ x ∈ t2, isBlank x = false)
    (n3 : t3 ≠ []) (k3 : ∀ x ∈ t3, isBlank x = false)
    (n4 : t4 ≠ []) (k4 : ∀ x ∈ t4, isBlank x = false)
    (n5 : t5 ≠ []) (k5 : ∀ x ∈ t5, isBlank x = false)
    (nu : u ≠ []) (ku : ∀ x ∈ u, isBlank x = false)
    (hw1 : w1 ≠ [] ∧ ∀ x ∈ w1, isBlank x = true) (hw2 : w2 ≠ [] ∧ ∀ x ∈ w2, isBlank x = true)
    (hw3 : w3 ≠ [] ∧ ∀ x ∈ w3, isBlank x = true) (hw4 : w4 ≠ [] ∧ ∀ x ∈ w4, isBlank x = true)
    (hw5 : w5 ≠ [] ∧ ∀ x ∈ w5, isBlank x = true) (hw6 : w6 ≠ [] ∧ ∀ x ∈ w6, isBlank x = true)
    (hc : ∀ x, c.head? = some x → isBlank x = false) :
    regexWhitespaceSplit
      (t1 ++ (w1 ++ (t2 ++ (w2 ++ (t3 ++ (w3 ++ (t4 ++ (w4 ++ (t5 ++ (w5 ++
        (u ++ (w6 ++ c)))))))))))) 7 = [t1, t2, t3, t4, t5, u, c] := by
  have e6 : regexWhitespaceSplit (u ++ (w6 ++ c)) 2 = [u, c] :=
    regexWhitespaceSplit_append 0 u w6 c ku hw6.1 hw6.2 hc
  rw [regexWhitespaceSplit_append 5 t1 w1 _ k1 hw1.1 hw1.2 (head_not_blank_append t2 _ n2 k2),
    regexWhitespaceSplit_append 4 t2 w2 _ k2 hw2.1 hw2.2 (head_not_blank_append t3 _ n3 k3),
    regexWhitespaceSplit_append 3 t3 w3 _ k3 hw3.1 hw3.2 (head_not_blank_append t4 _ n4 k4),
    regexWhitespaceSplit_append 2 t4 w4 _ k4 hw4.1 hw4.2 (head_not_blank_append t5 _ n5 k5),
    regexWhitespaceSplit_append 1 t5 w5 _ k5 hw5.1 hw5.2 (head_not_blank_append u _ nu ku),
    e6]

/-- The split of six tokens separated by runs of blanks, with nothing after the
sixth. -/
theorem regexWhitespaceSplit_six (t1 t2 t3 t4 t5 u w1 w2 w3 w4 w5 : Str)
    (k1 : ∀ x ∈ t1, isBlank x = false)
    (n2 : t2 ≠ []) (k2 : ∀ x ∈ t2, isBlank x = false)
    (n3 : t3 ≠ []) (k3 : ∀ x ∈ t3, isBlank x = false)
    (n4 : t4 ≠ []) (k4 : ∀ x ∈ t4, isBlank x = false)
    (n5 : t5 ≠ []) (k5 : ∀ x ∈ t5, isBlank x = false)
    (nu : u ≠ []) (ku : ∀ x ∈ u, isBlank x = false)
    (hw1 : w1 ≠ [] ∧ ∀ x ∈ w1, isBlank x = true) (hw2 : w2 ≠ [] ∧ ∀ x ∈ w2, isBlank x = true)
    (hw3 : w3 ≠ [] ∧ ∀ x ∈ w3, isBlank x = true) (hw4 : w4 ≠ [] ∧ ∀ x ∈ w4, isBlank x = true)
    (hw5 : w5 ≠ [] ∧ ∀ x ∈ w5, isBlank x = true) :
    regexWhitespaceSplit
      (t1 ++ (w1 ++ (t2 ++ (w2 ++ (t3 ++ (w3 ++ (t4 ++ (w4 ++ (t5 ++ (w5 ++ u)))))))))) 7 =
      [t1, t2, t3, t4, t5, u] := by
  have hu0 : ∀ x, u.head? = some x → isBlank x = false := by
    have := head_not_blank_append u [] nu ku
    simpa using this
  have e6 : regexWhitespaceSplit u 2 = [u] := by
    simp only [regexWhitespaceSplit, CutBlanks_of_no_blank u ku]
  rw [regexWhitespaceSplit_append 5 t1 w1 _ k1 hw1.1 hw1.2 (head_not_blank_append t2 _ n2 k2),
    regexWhitespaceSplit_append 4 t2 w2 _ k2 hw2.1 hw2.2 (head_not_blank_append t3 _ n3 k3),
    regexWhitespaceSplit_append 3 t3 w3 _ k3 hw3.1 hw3.2 (head_not_blank_append t4 _ n4 k4),
    regexWhitespaceSplit_append 2 t4 w4 _ k4 hw4.1 hw4.2 (head_not_blank_append t5 _ n5 k5),
    regexWhitespaceSplit_append 1 t5 w5 _ k5 hw5.1 hw5.2 hu0,
    e6]

/-! ## The claims -/

/-- C1: `parseSection token` succeeds exactly when the token is a base `b`, or a
base `b`, a `/` and a step `s`, where `b` is a non-empty string over `0`-`9` and
`*` and `s` is a non-empty string of digits; the result is then `b` with the empty
interval, resp. `b` with the interval `s`.  The tokens `*/5`, `*` and `30` give the
sections stated, and `a`, `1-5`, `1,2`, `5/` and the empty token are rejected, each
with the error quoting its offending part. -/
theorem C1_parseSection_accepts :
    (∀ (token : Str) (r : CronSection),
      parseSection token = .ok r ↔
        ((token ≠ [] ∧ (∀ c ∈ token, c.isDigit = true ∨ c = '*') ∧
            r = { Time := token, Interval := [] }) ∨
         ∃ b s : Str, token = b ++ '/' :: s ∧
            (b ≠ [] ∧ ∀ c ∈ b, c.isDigit = true ∨ c = '*') ∧
            (s ≠ [] ∧ ∀ c ∈ s, c.isDigit = true) ∧
            r = { Time := b, Interval := s })) ∧
    parseSection "*/5".toList = .ok { Time := "*".toList, Interval := "5".toList } ∧
    parseSection "*".toList = .ok { Time := "*".toList, Interval := [] } ∧
    parseSection "30".toList = .ok { Time := "30".toList, Interval := [] } ∧
    parseSection "a".toList = .error (.sectionPart "a".toList) ∧
    parseSection "1-5".toList = .error (.sectionPart "1-5".toList) ∧
    parseSection "1,2".toList = .error (.sectionPart "1,2".toList) ∧
    parseSection "5/".toList = .error (.sectionPart []) ∧
    parseSection [] = .error (.sectionPart []) := by
  refine ⟨?_, by decide, by decide, by decide, by decide, by decide, by decide, by decide,
    by decide⟩
  exact fun token r => parseSection_ok_iff token r

/-- C2: for tokens `t1`..`t5` accepted by `parseSection`, a non-empty user token `u`
without space or tab, non-empty runs `w1`..`w6` of spaces and tabs and a command `c`
that does not begin with a space or tab, `parseLine` on
`t1 w1 t2 w2 t3 w3 t4 w4 t5 w5 u w6 c` succeeds with the five sections
`parseSection t1`..`parseSection t5` in that order, the user `u` and the command
exactly `c`. -/
theorem C2_parseLine_accepts
    (t1 t2 t3 t4 t5 u c w1 w2 w3 w4 w5 w6 : Str) (s1 s2 s3 s4 s5 : CronSection)
    (h1 : parseSection t1 = .ok s1) (h2 : parseSection t2 = .ok s2)
    (h3 : parseSection t3 = .ok s3) (h4 : parseSection t4 = .ok s4)
    (h5 : parseSection t5 = .ok s5)
    (hu0 : u ≠ []) (hu : ∀ x ∈ u, x ≠ ' ' ∧ x ≠ '\t')
    (hw1 : w1 ≠ [] ∧ ∀ x ∈ w1, x = ' ' ∨ x = '\t')
    (hw2 : w2 ≠ [] ∧ ∀ x ∈ w2, x = ' ' ∨ x = '\t')
    (hw3 : w3 ≠ [] ∧ ∀ x ∈ w3, x = ' ' ∨ x = '\t')
    (hw4 : w4 ≠ [] ∧ ∀ x ∈ w4, x = ' ' ∨ x = '\t')
    (hw5 : w5 ≠ [] ∧ ∀ x ∈ w5, x = ' ' ∨ x = '\t')
    (hw6 : w6 ≠ [] ∧ ∀ x ∈ w6, x = ' ' ∨ x = '\t')
    (hc : ∀ x, c.head? = some x → x ≠ ' ' ∧ x ≠ '\t') :
    parseLine (t1 ++ w1 ++ t2 ++ w2 ++ t3 ++ w3 ++ t4 ++ w4 ++ t5 ++ w5 ++ u ++ w6 ++ c) =
      .ok { Minute := some s1, Hour := some s2, Day := some s3, Month := some s4,
            DayOfWeek := some s5, User := u, Command := c } := by
  have b1 := fun x hx => (isBlank_iff x).2 (hw1.2 x hx)
  have b2 := fun x hx => (isBlank_iff x).2 (hw2.2 x hx)
  have b3 := fun x hx => (isBlank_iff x).2 (hw3.2 x hx)
  have b4 := fun x hx => (isBlank_iff x).2 (hw4.2 x hx)
  have b5 := fun x hx => (isBlank_iff x).2 (hw5.2 x hx)
  have b6 := fun x hx => (isBlank_iff x).2 (hw6.2 x hx)
  have bu := fun x hx => (isBlank_eq_false_iff x).2 (hu x hx)
  have bc := fun x hx => (isBlank_eq_false_iff x).2 (hc x hx)
  obtain ⟨n1, k1⟩ := parseSection_ok_token t1 s1 h1
  obtain ⟨n2, k2⟩ := parseSection_ok_token t2 s2 h2
  obtain ⟨n3, k3⟩ := parseSection_ok_token t3 s3 h3
  obtain ⟨n4, k4⟩ := parseSection_ok_token t4 s4 h4
  obtain ⟨n5, k5⟩ := parseSection_ok_token t5 s5 h5
  have e6 : regexWhitespaceSplit (u ++ (w6 ++ c)) 2 = [u, c] :=
    regexWhitespaceSplit_append 0 u w6 c bu hw6.1 b6 bc
  have e5 : regexWhitespaceSplit (t5 ++ (w5 ++ (u ++ (w6 ++ c)))) 3 = [t5, u, c] :=
    (regexWhitespaceSplit_append 1 t5 w5 _ k5 hw5.1 b5
      (head_not_blank_append u _ hu0 bu)).trans (by rw [e6])
  have e4 : regexWhitespaceSplit (t4 ++ (w4 ++ (t5 ++ (w5 ++ (u ++ (w6 ++ c)))))) 4 =
      [t4, t5, u, c] :=
    (regexWhitespaceSplit_append 2 t4 w4 _ k4 hw4.1 b4
      (head_not_blank_append t5 _ n5 k5)).trans (by rw [e5])
  have e3 : regexWhitespaceSplit
      (t3 ++ (w3 ++ (t4 ++ (w4 ++ (t5 ++ (w5 ++ (u ++ (w6 ++ c)))))))) 5 =
      [t3, t4, t5, u, c] :=
    (regexWhitespaceSplit_append 3 t3 w3 _ k3 hw3.1 b3
      (head_not_blank_append t4 _ n4 k4)).trans (by rw [e4])
  have e2 : regexWhitespaceSplit
      (t2 ++ (w2 ++ (t3 ++ (w3 ++ (t4 ++ (w4 ++ (t5 ++ (w5 ++ (u ++ (w6 ++ c)))))))))) 6 =
      [t2, t3, t4, t5, u, c] :=
    (regexWhitespaceSplit_append 4 t2 w2 _ k2 hw2.1 b2
      (head_not_blank_append t3 _ n3 k3)).trans (by rw [e3])
  have e1 : regexWhitespaceSplit
      (t1 ++ (w1 ++ (t2 ++ (w2 ++ (t3 ++ (w3 ++ (t4 ++ (w4 ++ (t5 ++ (w5 ++
        (u ++ (w6 ++ c)))))))))))) 7 =
      [t1, t2, t3, t4, t5, u, c] :=
    (regexWhitespaceSplit_append 5 t1 w1 _ k1 hw1.1 b1
      (head_not_blank_append t2 _ n2 k2)).trans (by rw [e2])
  apply parseLine_of_split _ _ _ _ _ _ _ _ _ _ _ _ _ _ h1 h2 h3 h4 h5
  simp only [List.append_assoc]
  exact e1

/-- C2, at the line `* * * * * root echo hi`: five sections `*` without interval,
the user `root` and the command `echo hi`. -/
theorem C2_parseLine_accepts_witness :
    parseLine "* * * * * root echo hi".toList =
      .ok { Minute := some { Time := "*".toList, Interval := [] },
            Hour := some { Time := "*".toList, Interval := [] },
            Day := some { Time := "*".toList, Interval := [] },
            Month := some { Time := "*".toList, Interval := [] },
            DayOfWeek := some { Time := "*".toList, Interval := [] },
            User := "root".toList, Command := "echo hi".toList } :=
  C2_parseLine_accepts "*".toList "*".toList "*".toList "*".toList "*".toList
    "root".toList "echo hi".toList " ".toList " ".toList " ".toList " ".toList " ".toList
    " ".toList _ _ _ _ _ (by decide) (by decide) (by decide) (by decide) (by decide)
    (by decide) (by decide) (by decide) (by decide) (by decide) (by decide) (by decide)
    (by decide) (by decide)

/-- C3: the parse does not always complete with success or an error value.  On the
line `hello`, and on the six-token line `* * * * * root`, which are not job entries
and hold no `=`, the index `parts[1]` of `parseEnvironment` is out of range: `ParseLine`
and `ParseCronTab` stop with a run-time panic instead of returning an error. -/
theorem C3_ParseLine_panics (cp : CronParser) :
    parseEnvironment "hello".toList = .panic ∧
    ParseLine cp "hello".toList = (.panic, cp) ∧
    ParseCronTab cp "hello".toList = (.panic, cp) ∧
    ParseLine cp "* * * * * root".toList = (.panic, cp) ∧
    ParseCronTab cp "* * * * * root".toList = (.panic, cp) :=
  ⟨rfl, rfl, rfl, rfl, rfl⟩

/-- C4: when `parseLine` fails on a line whose first `=` stands at an index greater
than 0, so that the line is `key`, `=`, `value` with `key` non-empty and free of `=`,
`ParseLine` returns nil, `Environment[key]` becomes `value`, every other key of
`Environment` keeps its value and `CronTab` is unchanged. -/
theorem C4_ParseLine_environment (cp : CronParser) (line key value : Str) (err : Err)
    (hfail : parseLine line = .error err)
    (hline : line = key ++ '=' :: value) (hkey : key ≠ []) (hfirst : '=' ∉ key) :
    (ParseLine cp line).1 = .nil ∧
    (ParseLine cp line).2.Environment key = some value ∧
    (∀ k, k ≠ key → (ParseLine cp line).2.Environment k = cp.Environment k) ∧
    (ParseLine cp line).2.CronTab = cp.CronTab := by
  rw [ParseLine_of_not_entry cp line (fun e he => by rw [hfail] at he; cases he)]
  subst hline
  have hpe : parseEnvironment (key ++ '=' :: value) = .ok (key, value) := by
    rw [parseEnvironment_append key value hfirst, if_neg hkey]
  unfold ParseEnvironment
  rw [hpe]
  refine ⟨rfl, ?_, ?_, rfl⟩
  · simp [mapSet]
  · intro k hk
    simp [mapSet, hk]

/-- C4, at the lines `FOO=bar`, `A=b=c` and `0 0 * * MON root X=1` on a fresh parser:
the keys `FOO`, `A` and `0 0 * * MON root X` receive `bar`, `b=c` and `1`. -/
theorem C4_ParseLine_environment_witness :
    ((ParseLine NewCronParser "FOO=bar".toList).1 = .nil ∧
      (ParseLine NewCronParser "FOO=bar".toList).2.Environment "FOO".toList =
        some "bar".toList) ∧
    ((ParseLine NewCronParser "A=b=c".toList).1 = .nil ∧
      (ParseLine NewCronParser "A=b=c".toList).2.Environment "A".toList =
        some "b=c".toList) ∧
    ((ParseLine NewCronParser "0 0 * * MON root X=1".toList).1 = .nil ∧
      (ParseLine NewCronParser "0 0 * * MON root X=1".toList).2.Environment
        "0 0 * * MON root X".toList = some "1".toList) :=
  ⟨let h := C4_ParseLine_environment NewCronParser "FOO=bar".toList "FOO".toList
      "bar".toList _ rfl (by decide) (by decide) (by decide)
   ⟨h.1, h.2.1⟩,
   let h := C4_ParseLine_environment NewCronParser "A=b=c".toList "A".toList
      "b=c".toList _ rfl (by decide) (by decide) (by decide)
   ⟨h.1, h.2.1⟩,
   let h := C4_ParseLine_environment NewCronParser "0 0 * * MON root X=1".toList
      "0 0 * * MON root X".toList "1".toList _ rfl (by decide) (by decide) (by decide)
   ⟨h.1, h.2.1⟩⟩

/-- C5: when `parseLine` succeeds on a line with the entry `e`, `ParseLine` returns
nil, the new `CronTab` is the old one with `e` appended at the end, and `Environment`
is unchanged, whatever `=` the line holds. -/
theorem C5_ParseLine_entry_first (cp : CronParser) (line : Str) (e : CronEntry)
    (h : parseLine line = .ok e) :
    (ParseLine cp line).1 = .nil ∧
    (ParseLine cp line).2.CronTab = cp.CronTab ++ [e] ∧
    (ParseLine cp line).2.Environment = cp.Environment := by
  rw [ParseLine_of_entry cp line e h]
  exact ⟨rfl, rfl, rfl⟩

/-- C5, at the line `* * * * * root FOO=bar` on a fresh parser: one entry with the
command `FOO=bar` is appended and the environment stays empty. -/
theorem C5_ParseLine_entry_first_witness :
    (ParseLine NewCronParser "* * * * * root FOO=bar".toList).1 = .nil ∧
    (ParseLine NewCronParser "* * * * * root FOO=bar".toList).2.CronTab =
      NewCronParser.CronTab ++
        [{ Minute := some { Time := "*".toList, Interval := [] },
           Hour := some { Time := "*".toList, Interval := [] },
           Day := some { Time := "*".toList, Interval := [] },
           Month := some { Time := "*".toList, Interval := [] },
           DayOfWeek := some { Time := "*".toList, Interval := [] },
           User := "root".toList, Command := "FOO=bar".toList }] ∧
    (ParseLine NewCronParser "* * * * * root FOO=bar".toList).2.Environment =
      NewCronParser.Environment :=
  C5_ParseLine_entry_first NewCronParser "* * * * * root FOO=bar".toList _ (by decide)

/-- C6: on a line whose first character is `=`, `ParseLine` returns the missing-key
error quoting the line and leaves `Environment` and `CronTab` unchanged; such a line
is never accepted by `parseLine` as a job entry; and `ParseCronTab` on a body whose
first non-ignored line, once left-trimmed of spaces and tabs, begins with `=`
returns that error. -/
theorem C6_missing_key (cp : CronParser) (rest : Str) :
    ParseLine cp ('=' :: rest) = (.error (.missingKey ('=' :: rest)), cp) ∧
    (∀ e, parseLine ('=' :: rest) ≠ .ok e) ∧
    (∀ (body l : Str) (pre post : List Str),
      Split '\n' body = pre ++ l :: post →
      (∀ x ∈ pre, isIgnored (TrimLeft x) = true) →
      TrimLeft l = '=' :: rest →
      ParseCronTab cp body = (.error (.missingKey ('=' :: rest)), cp)) := by
  refine ⟨ParseLine_eq_sign cp rest, fun e => parseLine_eq_sign rest e, ?_⟩
  intro body l pre post hsplit hpre hl
  have hn : isIgnored (TrimLeft l) = false := by
    rw [hl]
    simp only [isIgnored, HasPrefixHash, List.isEmpty_cons, Bool.false_or]
    decide
  unfold ParseCronTab
  rw [hsplit, ParseCronTabLoop_ignored_append cp pre _ hpre, ParseCronTabLoop_cons cp l post hn,
    hl, ParseLine_eq_sign]

/-- C6, at the line `=novalue` and at a body whose first lines are a comment and a
blank line and whose third line is `=novalue` after a space and a tab. -/
theorem C6_missing_key_witness :
    ParseLine NewCronParser "=novalue".toList =
      (.error (.missingKey "=novalue".toList), NewCronParser) ∧
    ParseCronTab NewCronParser "# c\n\n \t=novalue\nA=b".toList =
      (.error (.missingKey "=novalue".toList), NewCronParser) :=
  ⟨(C6_missing_key NewCronParser "novalue".toList).1,
   (C6_missing_key NewCronParser "novalue".toList).2.2 "# c\n\n \t=novalue\nA=b".toList
      " \t=novalue".toList ["# c".toList, []] ["A=b".toList] (by decide) (by decide)
      (by decide)⟩

/-- C7: when `ParseCronTab` on a fresh parser returns nil, the final `CronTab` is the
sequence of the entries that `parseLine` returns on the lines of the body (split on
newline, left-trimmed of spaces and tabs, ignored lines dropped) on which it
succeeds, in source order. -/
theorem C7_CronTab_source_order (body : Str) (cp' : CronParser)
    (h : ParseCronTab NewCronParser body = (.nil, cp')) :
    cp'.CronTab =
      (((Split '\n' body).map TrimLeft).filter (fun l => !isIgnored l)).filterMap
        (fun l => (parseLine l).toOption) := by
  have := ParseCronTabLoop_nil_CronTab (Split '\n' body) NewCronParser cp' h
  simpa [NewCronParser] using this

/-- C7, at a body with a comment, an assignment, a job, a blank line and a second
job: the two jobs, in that order. -/
theorem C7_CronTab_source_order_witness :
    (ParseCronTab NewCronParser
        "# jobs\nA=1\n* * * * * root a\n\n  0 */2 * * * bob b c".toList).2.CronTab =
      [{ Minute := some { Time := "*".toList, Interval := [] },
         Hour := some { Time := "*".toList, Interval := [] },
         Day := some { Time := "*".toList, Interval := [] },
         Month := some { Time := "*".toList, Interval := [] },
         DayOfWeek := some { Time := "*".toList, Interval := [] },
         User := "root".toList, Command := "a".toList },
       { Minute := some { Time := "0".toList, Interval := [] },
         Hour := some { Time := "*".toList, Interval := "2".toList },
         Day := some { Time := "*".toList, Interval := [] },
         Month := some { Time := "*".toList, Interval := [] },
         DayOfWeek := some { Time := "*".toList, Interval := [] },
         User := "bob".toList, Command := "b c".toList }] :=
  (C7_CronTab_source_order
    "# jobs\nA=1\n* * * * * root a\n\n  0 */2 * * * bob b c".toList _ rfl).trans (by decide)

/-- C8: when `ParseCronTab` on a fresh parser returns nil, the final `Environment[k]`
is the text after the first `=` of the last non-ignored line that is not a job entry
and whose text before its first `=` is `k`, and `k` is absent when there is no such
line. -/
theorem C8_last_write_wins (body : Str) (cp' : CronParser) (k : Str)
    (h : ParseCronTab NewCronParser body = (.nil, cp')) :
    cp'.Environment k =
      ((((((Split '\n' body).map TrimLeft).filter (fun l => !isIgnored l)).filter
          (fun l => (parseLine l).toOption.isNone)).filterMap (Cut '=')).filter
          (fun p => decide (p.1 = k))).getLast?.map Prod.snd := by
  have := ParseCronTabLoop_nil_Environment k (Split '\n' body) NewCronParser cp' h
  simpa [NewCronParser] using this

/-- C8, at the body `A=1` newline `A=2`: the key `A` holds `2` and the key `B` is
absent. -/
theorem C8_last_write_wins_witness :
    (ParseCronTab NewCronParser "A=1\nA=2".toList).2.Environment "A".toList =
      some "2".toList ∧
    (ParseCronTab NewCronParser "A=1\nA=2".toList).2.Environment "B".toList = none :=
  ⟨(C8_last_write_wins "A=1\nA=2".toList _ "A".toList rfl).trans (by decide),
   (C8_last_write_wins "A=1\nA=2".toList _ "B".toList rfl).trans (by decide)⟩

/-- C9: a line `x` that is ignored (empty or starting with `#` once left-trimmed of
spaces and tabs) can be inserted or deleted between two parts of a body, before a
body, or after it (a trailing newline being the empty line after it) without
changing what `ParseCronTab` returns or the final state; and on a body whose lines
are all ignored `ParseCronTab` returns nil and leaves the state unchanged. -/
theorem C9_ignored_lines (cp : CronParser) :
    (∀ x : Str, isIgnored (TrimLeft x) = true → '\n' ∉ x →
      (∀ a b : Str,
        ParseCronTab cp (a ++ '\n' :: (x ++ '\n' :: b)) = ParseCronTab cp (a ++ '\n' :: b)) ∧
      (∀ b : Str, ParseCronTab cp (x ++ '\n' :: b) = ParseCronTab cp b) ∧
      (∀ a : Str, ParseCronTab cp (a ++ '\n' :: x) = ParseCronTab cp a)) ∧
    (∀ body : Str, (∀ l ∈ Split '\n' body, isIgnored (TrimLeft l) = true) →
      ParseCronTab cp body = (.nil, cp)) := by
  constructor
  · intro x hx hn
    have hsx : Split '\n' x = [x] := Split_of_not_mem _ _ hn
    have hskip : ∀ cp1 : CronParser, ParseCronTabLoop cp1 [x] = (.nil, cp1) := fun cp1 => by
      rw [ParseCronTabLoop_ignored cp1 x [] hx]
      rfl
    refine ⟨fun a b => ?_, fun b => ?_, fun a => ?_⟩
    · unfold ParseCronTab
      rw [Split_append _ _ _ a (le_refl _), Split_append _ _ _ x (le_refl _), hsx,
        Split_append _ _ _ a (le_refl _), ParseCronTabLoop_append, ParseCronTabLoop_append]
      rcases ParseCronTabLoop cp (Split '\n' a) with ⟨r, cp1⟩
      cases r with
      | nil => exact ParseCronTabLoop_ignored cp1 x _ hx
      | error e => rfl
      | panic => rfl
    · unfold ParseCronTab
      rw [Split_append _ _ _ x (le_refl _), hsx]
      exact ParseCronTabLoop_ignored cp x _ hx
    · unfold ParseCronTab
      rw [Split_append _ _ _ a (le_refl _), hsx, ParseCronTabLoop_append]
      rcases ParseCronTabLoop cp (Split '\n' a) with ⟨r, cp1⟩
      cases r with
      | nil => exact hskip cp1
      | error e => rfl
      | panic => rfl
  · intro body hall
    unfold ParseCronTab
    have := ParseCronTabLoop_ignored_append cp (Split '\n' body) [] hall
    rw [List.append_nil] at this
    rw [this]
    rfl

/-- C9, on a fresh parser: a comment line inserted between an assignment and a job, a
trailing newline, and a body of a comment, an empty line and a line of blanks. -/
theorem C9_ignored_lines_witness :
    ParseCronTab NewCronParser "A=1\n  # note\n* * * * * root ls".toList =
      ParseCronTab NewCronParser "A=1\n* * * * * root ls".toList ∧
    ParseCronTab NewCronParser "A=1\n".toList = ParseCronTab NewCronParser "A=1".toList ∧
    ParseCronTab NewCronParser "# a\n\n \t".toList = (.nil, NewCronParser) :=
  ⟨((C9_ignored_lines NewCronParser).1 "  # note".toList (by decide) (by decide)).1
      "A=1".toList "* * * * * root ls".toList,
   ((C9_ignored_lines NewCronParser).1 [] (by decide) (by decide)).2.2 "A=1".toList,
   (C9_ignored_lines NewCronParser).2 "# a\n\n \t".toList (by decide)⟩

/-- C10, as stated, fails: on a fresh parser the body `A=b` newline `=x` makes
`ParseCronTab` return the missing-key error while `Environment` keeps `A`, and the
body `* * * * * root a` newline `=x` makes it return the error while `CronTab` keeps
the entry of the first line. -/
theorem C10_state_not_restored :
    (ParseCronTab NewCronParser "A=b\n=x".toList).1 = .error (.missingKey "=x".toList) ∧
    (ParseCronTab NewCronParser "A=b\n=x".toList).2.Environment "A".toList =
      some "b".toList ∧
    NewCronParser.Environment "A".toList = none ∧
    (ParseCronTab NewCronParser "A=b\n=x".toList).2.Environment ≠ NewCronParser.Environment ∧
    (ParseCronTab NewCronParser "* * * * * root a\n=x".toList).1 =
      .error (.missingKey "=x".toList) ∧
    (ParseCronTab NewCronParser "* * * * * root a\n=x".toList).2.CronTab.length = 1 ∧
    NewCronParser.CronTab = [] := by
  refine ⟨by decide, by decide, by decide, ?_, by decide, by decide, rfl⟩
  intro h
  have h2 := congrFun h "A".toList
  revert h2
  decide

/-- C10, amended: when `ParseCronTab` returns an error, the body has a first failing
line `l`, not ignored, on which `ParseLine` returns that error without changing the
state, and the final state is the one reached by the lines before `l`, whose entries
and assignments are retained. -/
theorem C10_state_on_error (cp cp' : CronParser) (body : Str) (e : Err)
    (h : ParseCronTab cp body = (.error e, cp')) :
    ∃ pre l post, Split '\n' body = pre ++ l :: post ∧
      ParseCronTabLoop cp pre = (.nil, cp') ∧
      isIgnored (TrimLeft l) = false ∧
      ParseLine cp' (TrimLeft l) = (.error e, cp') :=
  ParseCronTabLoop_error (Split '\n' body) cp cp' e h

/-- C10 amended, at the body `A=b` newline `=x` on a fresh parser. -/
theorem C10_state_on_error_witness :
    ∃ pre l post, Split '\n' "A=b\n=x".toList = pre ++ l :: post ∧
      ParseCronTabLoop NewCronParser pre =
        (.nil, (ParseCronTab NewCronParser "A=b\n=x".toList).2) ∧
      isIgnored (TrimLeft l) = false ∧
      ParseLine (ParseCronTab NewCronParser "A=b\n=x".toList).2 (TrimLeft l) =
        (.error (.missingKey "=x".toList), (ParseCronTab NewCronParser "A=b\n=x".toList).2) :=
  C10_state_on_error NewCronParser _ "A=b\n=x".toList _ rfl

/-- C11: `parseSection` fails with the starred-step error exactly on the tokens made
of a part before the first `/` and a part after it that are both non-empty strings
over `0`-`9` and `*`, the part after holding a `*` (so `5/*`, `*/*` and `1/2*`); every
other rejected token fails with the section-part error quoting the first of its
parts, base then step, that is not a non-empty string over `0`-`9` and `*`. -/
theorem C11_parseSection_error_kinds :
    (∀ token : Str, parseSection token = .error .starredInterval ↔
      ∃ b s : Str, token = b ++ '/' :: s ∧ '/' ∉ b ∧
        (b ≠ [] ∧ ∀ c ∈ b, c.isDigit = true ∨ c = '*') ∧
        (s ≠ [] ∧ ∀ c ∈ s, c.isDigit = true ∨ c = '*') ∧ '*' ∈ s) ∧
    (∀ (token : Str) (e : Err), parseSection token = .error e → e ≠ .starredInterval →
      ('/' ∉ token ∧ ¬ (token ≠ [] ∧ ∀ c ∈ token, c.isDigit = true ∨ c = '*') ∧
        e = .sectionPart token) ∨
      ∃ b s : Str, token = b ++ '/' :: s ∧ '/' ∉ b ∧
        ((¬ (b ≠ [] ∧ ∀ c ∈ b, c.isDigit = true ∨ c = '*') ∧ e = .sectionPart b) ∨
         ((b ≠ [] ∧ ∀ c ∈ b, c.isDigit = true ∨ c = '*') ∧
          ¬ (s ≠ [] ∧ ∀ c ∈ s, c.isDigit = true ∨ c = '*') ∧ e = .sectionPart s))) ∧
    parseSection "5/*".toList = .error .starredInterval ∧
    parseSection "*/*".toList = .error .starredInterval ∧
    parseSection "1/2*".toList = .error .starredInterval := by
  refine ⟨fun token => ⟨fun h => ?_, ?_⟩, fun token e h hne => ?_, by decide, by decide,
    by decide⟩
  · rw [parseSection_eq] at h
    cases hc : Cut '/' token with
    | none =>
      rw [hc] at h
      by_cases hs : regexSection token = true <;> simp [hs] at h
    | some p =>
      obtain ⟨a, b⟩ := p
      rw [hc] at h
      obtain ⟨heq, hna⟩ := (Cut_eq_some _ _ _ _).1 hc
      by_cases ha : regexSection a = true
      · by_cases hb : regexSection b = true
        · by_cases hr : regexRHS b = true
          · simp [ha, hb, hr] at h
          · refine ⟨a, b, heq, hna, (regexSection_iff a).1 ha, (regexSection_iff b).1 hb, ?_⟩
            rw [regexRHS_iff] at hr
            push_neg at hr
            obtain ⟨c, hc1, hc2⟩ := hr
            rcases ((regexSection_iff b).1 hb).2 c hc1 with hd | rfl
            · exact absurd hd hc2
            · exact hc1
        · simp [ha, hb] at h
      · simp [ha] at h
  · rintro ⟨b, s, rfl, hnb, hb, hs, hstar⟩
    have hb1 : regexSection b = true := (regexSection_iff b).2 hb
    have hs1 : regexSection s = true := (regexSection_iff s).2 hs
    have hs2 : regexRHS s = false := by
      cases hr : regexRHS s with
      | false => rfl
      | true =>
        have := (regexRHS_iff s).1 hr _ hstar
        revert this
        decide
    rw [parseSection_eq, Cut_append _ _ _ hnb]
    simp [hb1, hs1, hs2]
  · rw [parseSection_eq] at h
    cases hc : Cut '/' token with
    | none =>
      rw [hc] at h
      by_cases hs : regexSection token = true
      · simp [hs] at h
      · simp only [hs, Bool.false_eq_true, if_false, Except.error.injEq] at h
        exact Or.inl ⟨(Cut_eq_none _ _).1 hc, fun hh => hs ((regexSection_iff token).2 hh),
          h.symm⟩
    | some p =>
      obtain ⟨a, b⟩ := p
      rw [hc] at h
      obtain ⟨heq, hna⟩ := (Cut_eq_some _ _ _ _).1 hc
      refine Or.inr ⟨a, b, heq, hna, ?_⟩
      by_cases ha : regexSection a = true
      · by_cases hb : regexSection b = true
        · by_cases hr : regexRHS b = true
          · simp [ha, hb, hr] at h
          · simp only [ha, hb, hr, Bool.not_true, Bool.not_false, Bool.false_eq_true, if_false,
              if_true, Except.error.injEq] at h
            exact absurd h.symm hne
        · simp only [ha, hb, Bool.not_true, Bool.not_false, Bool.false_eq_true, if_false,
            if_true, Except.error.injEq] at h
          exact Or.inr ⟨(regexSection_iff a).1 ha,
            fun hh => hb ((regexSection_iff b).2 hh), h.symm⟩
      · simp only [ha, Bool.not_false, if_true, Except.error.injEq] at h
        exact Or.inl ⟨fun hh => ha ((regexSection_iff a).2 hh), h.symm⟩

/-- C11, at the tokens `5/*` (starred step), `a/5` (the base is quoted) and `5/a`
(the step is quoted). -/
theorem C11_parseSection_error_kinds_witness :
    parseSection "5/*".toList = .error .starredInterval ∧
    (('/' ∉ "a/5".toList ∧
        ¬ ("a/5".toList ≠ [] ∧ ∀ c ∈ "a/5".toList, c.isDigit = true ∨ c = '*') ∧
        Err.sectionPart "a".toList = .sectionPart "a/5".toList) ∨
      ∃ b s : Str, "a/5".toList = b ++ '/' :: s ∧ '/' ∉ b ∧
        ((¬ (b ≠ [] ∧ ∀ c ∈ b, c.isDigit = true ∨ c = '*') ∧
            Err.sectionPart "a".toList = .sectionPart b) ∨
         ((b ≠ [] ∧ ∀ c ∈ b, c.isDigit = true ∨ c = '*') ∧
          ¬ (s ≠ [] ∧ ∀ c ∈ s, c.isDigit = true ∨ c = '*') ∧
            Err.sectionPart "a".toList = .sectionPart s))) :=
  ⟨(C11_parseSection_error_kinds.1 "5/*".toList).2
      ⟨"5".toList, "*".toList, rfl, by decide, by decide, by decide, by decide⟩,
   C11_parseSection_error_kinds.2.1 "a/5".toList (.sectionPart "a".toList) (by decide)
      (by decide)⟩

/-- C12: the split of a line on runs of spaces and tabs with limit 7 has at most 7
tokens, and `parseLine` fails with the token-count error quoting the line exactly
when the line holds fewer than six maximal runs of spaces and tabs, which is when
the split has fewer than 7 tokens, whatever the tokens are. -/
theorem C12_token_count (line : Str) :
    (regexWhitespaceSplit line 7).length ≤ 7 ∧
    (parseLine line = .error (.notEnoughComponents line) ↔ blankRuns line < 6) ∧
    (blankRuns line < 6 ↔ (regexWhitespaceSplit line 7).length < 7) := by
  have hlen := regexWhitespaceSplit_length 6 line
  have hle := regexWhitespaceSplit_length_le 7 line
  refine ⟨hle, ⟨fun h => ?_, fun h => ?_⟩, ⟨fun h => ?_, fun h => ?_⟩⟩
  · by_contra hcon
    have h7 : (regexWhitespaceSplit line 7).length = 7 := by
      rw [hlen]
      omega
    exact parseLine_seven_ne line h7 h
  · apply parseLine_short
    rw [hlen]
    omega
  · rw [hlen]
    omega
  · rw [hlen] at h
    omega

/-- C13: an error returned by `ParseLine` is the missing-key error quoting the line
it was given, and an error returned by `ParseCronTab` is the missing-key error
quoting the first failing line of the body, left-trimmed of spaces and tabs; the
token-count, section-part and starred-step errors of the job-entry attempt are
never returned by either. -/
theorem C13_only_missing_key (cp cp' : CronParser) (e : Err) :
    (∀ line : Str, ParseLine cp line = (.error e, cp') → e = .missingKey line) ∧
    (∀ body : Str, ParseCronTab cp body = (.error e, cp') →
      ∃ pre l post, Split '\n' body = pre ++ l :: post ∧
        ParseCronTabLoop cp pre = (.nil, cp') ∧
        isIgnored (TrimLeft l) = false ∧
        ParseLine cp' (TrimLeft l) = (.error e, cp') ∧
        e = .missingKey (TrimLeft l)) ∧
    ((∃ line : Str, ParseLine cp line = (.error e, cp')) ∨
      (∃ body : Str, ParseCronTab cp body = (.error e, cp')) →
      (∀ l, e ≠ .notEnoughComponents l) ∧ (∀ s, e ≠ .sectionPart s) ∧
      (∀ s, e ≠ .sectionCount s) ∧ e ≠ .starredInterval ∧ (∀ s err, e ≠ .minuteInvalid s err)) := by
  have hline : ∀ line : Str, ParseLine cp line = (.error e, cp') → e = .missingKey line :=
    fun line h => (ParseLine_error cp cp' line e h).1
  have hbody : ∀ body : Str, ParseCronTab cp body = (.error e, cp') →
      ∃ pre l post, Split '\n' body = pre ++ l :: post ∧
        ParseCronTabLoop cp pre = (.nil, cp') ∧
        isIgnored (TrimLeft l) = false ∧
        ParseLine cp' (TrimLeft l) = (.error e, cp') ∧
        e = .missingKey (TrimLeft l) := by
    intro body h
    obtain ⟨pre, l, post, h1, h2, h3, h4⟩ := ParseCronTabLoop_error (Split '\n' body) cp cp' e h
    exact ⟨pre, l, post, h1, h2, h3, h4, (ParseLine_error cp' cp' _ e h4).1⟩
  refine ⟨hline, hbody, ?_⟩
  intro h
  have hk : ∃ l, e = .missingKey l := by
    rcases h with ⟨line, h⟩ | ⟨body, h⟩
    · exact ⟨line, hline line h⟩
    · obtain ⟨pre, l, post, -, -, -, -, h5⟩ := hbody body h
      exact ⟨_, h5⟩
  obtain ⟨l, rfl⟩ := hk
  refine ⟨fun _ hh => ?_, fun _ hh => ?_, fun _ hh => ?_, fun hh => ?_, fun _ _ hh => ?_⟩ <;>
    cases hh

/-- C13, on a fresh parser: the line `=x`, and the body `A=b` newline ` =x`, whose
error quotes `=x` while the state keeps `A`. -/
theorem C13_only_missing_key_witness :
    (ParseLine NewCronParser "=x".toList =
        (.error (.missingKey "=x".toList), NewCronParser) ∧
      Err.missingKey "=x".toList = .missingKey "=x".toList) ∧
    ∃ pre l post, Split '\n' "A=b\n =x".toList = pre ++ l :: post ∧
      ParseCronTabLoop NewCronParser pre =
        (.nil, (ParseCronTab NewCronParser "A=b\n =x".toList).2) ∧
      isIgnored (TrimLeft l) = false ∧
      ParseLine (ParseCronTab NewCronParser "A=b\n =x".toList).2 (TrimLeft l) =
        (.error (.missingKey "=x".toList),
          (ParseCronTab NewCronParser "A=b\n =x".toList).2) ∧
      Err.missingKey "=x".toList = .missingKey (TrimLeft l) :=
  ⟨⟨rfl, (C13_only_missing_key NewCronParser NewCronParser (.missingKey "=x".toList)).1
      "=x".toList rfl⟩,
   (C13_only_missing_key NewCronParser (ParseCronTab NewCronParser "A=b\n =x".toList).2
      (.missingKey "=x".toList)).2.1 "A=b\n =x".toList rfl⟩

/-- C14: a token with two or more `/` is split by `parseSection` into the base before
its first `/` and a step that keeps the other `/`; it is rejected with the
section-part error, quoting the base when the base is not a non-empty string over
`0`-`9` and `*` and the step otherwise; it is never rejected with the starred-step
error and never accepted.  The token `1/2/3` is rejected quoting `2/3`. -/
theorem C14_multiple_slashes (token : Str) (h : 2 ≤ token.count '/') :
    (∃ b s : Str, token = b ++ '/' :: s ∧ '/' ∉ b ∧ '/' ∈ s ∧
      SplitN '/' token 2 = [b, s] ∧
      parseSection token = .error (.sectionPart (if regexSection b = true then s else b))) ∧
    parseSection token ≠ .error .starredInterval ∧
    (∀ r, parseSection token ≠ .ok r) ∧
    parseSection "1/2/3".toList = .error (.sectionPart "2/3".toList) := by
  have hmem : '/' ∈ token := List.count_pos_iff.1 (by omega)
  cases hc : Cut '/' token with
  | none => exact absurd hmem ((Cut_eq_none _ _).1 hc)
  | some p =>
    obtain ⟨b, s⟩ := p
    obtain ⟨rfl, hnb⟩ := (Cut_eq_some _ _ _ _).1 hc
    have hs : '/' ∈ s := by
      have hcount : (b ++ '/' :: s).count '/' = s.count '/' + 1 := by
        simp [List.count_append, List.count_eq_zero_of_not_mem hnb]
      exact List.count_pos_iff.1 (by omega)
    have hrs : regexSection s = false := by
      cases hr : regexSection s with
      | false => rfl
      | true => exact absurd hs (slash_not_mem_of_regexSection s hr)
    have hres : parseSection (b ++ '/' :: s) =
        .error (.sectionPart (if regexSection b = true then s else b)) := by
      rw [parseSection_eq, hc]
      by_cases hb : regexSection b = true <;> simp [hb, hrs]
    refine ⟨⟨b, s, rfl, hnb, hs, ?_, hres⟩, ?_, ?_, by decide⟩
    · simp only [SplitN, hc]
    · rw [hres]
      intro hh
      cases hh
    · intro r
      rw [hres]
      intro hh
      cases hh

/-- C14, at the token `1/2/3`. -/
theorem C14_multiple_slashes_witness :
    (∃ b s : Str, "1/2/3".toList = b ++ '/' :: s ∧ '/' ∉ b ∧ '/' ∈ s ∧
      SplitN '/' "1/2/3".toList 2 = [b, s] ∧
      parseSection "1/2/3".toList =
        .error (.sectionPart (if regexSection b = true then s else b))) ∧
    parseSection "1/2/3".toList ≠ .error .starredInterval ∧
    (∀ r, parseSection "1/2/3".toList ≠ .ok r) ∧
    parseSection "1/2/3".toList = .error (.sectionPart "2/3".toList) :=
  C14_multiple_slashes "1/2/3".toList (by decide)

/-- C15: on a line that splits into seven tokens of which the token `i`, among the
first five, is the leftmost one rejected by `parseSection`, `parseLine` returns no
entry but the error that quotes the token `i` and wraps the error of `parseSection`
on it; a second seven-token line with the same tokens up to and including `i` gives
the same error. -/
theorem C15_fail_fast (line : Str) (toks : List Str) (i : Nat) (err : Err)
    (hs : regexWhitespaceSplit line 7 = toks) (hlen : toks.length = 7) (hi : i < 5)
    (hok : ∀ j, j < i → ∃ c, parseSection (toks.getD j []) = .ok c)
    (herr : parseSection (toks.getD i []) = .error err) :
    parseLine line = .error (.minuteInvalid (toks.getD i []) err) ∧
    (∀ (line' : Str) (toks' : List Str), regexWhitespaceSplit line' 7 = toks' →
      toks'.length = 7 → (∀ j, j ≤ i → toks'.getD j [] = toks.getD j []) →
      parseLine line' = parseLine line) := by
  have h1 := parseLine_first_error line toks i err hs hlen hi hok herr
  refine ⟨h1, fun line' toks' hs' hlen' hagree => ?_⟩
  have h2 := parseLine_first_error line' toks' i err hs' hlen' hi
    (fun j hj => by rw [hagree j (by omega)]; exact hok j hj)
    (by rw [hagree i (le_refl _)]; exact herr)
  rw [h1, h2, hagree i (le_refl _)]

/-- C15, at the line `* a * b * root cmd`: the error is the one of the token `a`, as
on the line `* a 1 2 3 bob x`. -/
theorem C15_fail_fast_witness :
    parseLine "* a * b * root cmd".toList =
      .error (.minuteInvalid "a".toList (.sectionPart "a".toList)) ∧
    parseLine "* a 1 2 3 bob x".toList = parseLine "* a * b * root cmd".toList :=
  let h := C15_fail_fast "* a * b * root cmd".toList
    ["*".toList, "a".toList, "*".toList, "b".toList, "*".toList, "root".toList, "cmd".toList]
    1 (.sectionPart "a".toList) (by decide) (by decide) (by decide)
    (fun j hj => by
      have : j = 0 := by omega
      subst this
      exact ⟨_, rfl⟩)
    (by decide)
  ⟨h.1, h.2 "* a 1 2 3 bob x".toList
    ["*".toList, "a".toList, "1".toList, "2".toList, "3".toList, "bob".toList, "x".toList]
    (by decide) (by decide)
    (fun j hj => by
      have : j = 0 ∨ j = 1 := by omega
      rcases this with rfl | rfl <;> rfl)⟩

/-- C16: the error of `parseLine` and `ParseEntry` does not name the failing field.
On `* a * * * root cmd`, whose hour is invalid, the error is the one built with the
text "Minute is invalid", and it is the very error of `a * * * * root cmd`, whose
minute is invalid: `parseSectionVar` builds that one error for every field. -/
theorem C16_field_name_is_minute :
    parseLine "* a * * * root cmd".toList =
      .error (.minuteInvalid "a".toList (.sectionPart "a".toList)) ∧
    parseLine "a * * * * root cmd".toList =
      .error (.minuteInvalid "a".toList (.sectionPart "a".toList)) ∧
    (ParseEntry NewCronParser "* a * * * root cmd".toList).1 =
      (ParseEntry NewCronParser "a * * * * root cmd".toList).1 ∧
    (ParseEntry NewCronParser "* a * * * root cmd".toList).1 =
      .error (.minuteInvalid "a".toList (.sectionPart "a".toList)) ∧
    (∀ (str : Str) (err : Err), parseSection str = .error err →
      (parseSectionVar str).2 = some (.minuteInvalid str err)) := by
  refine ⟨by decide, by decide, by decide, by decide, fun str err h => ?_⟩
  simp only [parseSectionVar, h]

/-- C17: starting from `NewCronParser`, after any sequence of calls of `ParseCronTab`,
`ParseLine`, `ParseEntry` and `ParseEnvironment`, whatever they return, every entry of
`CronTab` has its five sections present, each with a non-empty `Time` over `0`-`9`
and `*` and an `Interval` of digits without `*`, and no key of `Environment` is the
empty string. -/
theorem C17_invariant (calls : List Call) :
    (∀ e ∈ (runCalls NewCronParser calls).CronTab,
      ∀ o ∈ [e.Minute, e.Hour, e.Day, e.Month, e.DayOfWeek],
        ∃ c : CronSection, o = some c ∧ c.Time ≠ [] ∧
          (∀ x ∈ c.Time, x.isDigit = true ∨ x = '*') ∧
          (∀ x ∈ c.Interval, x.isDigit = true) ∧ '*' ∉ c.Interval) ∧
    (∀ k v, (runCalls NewCronParser calls).Environment k = some v → k ≠ []) := by
  obtain ⟨h1, h2⟩ := Invariant_runCalls calls NewCronParser Invariant_NewCronParser
  refine ⟨fun e he o ho => ?_, h2⟩
  obtain ⟨c, hc, ht0, ht, hi⟩ := h1 e he o ho
  refine ⟨c, hc, ht0, ht, hi, fun hstar => ?_⟩
  have := hi _ hstar
  revert this
  decide

/-- C17, after a sequence of five calls on a fresh parser, of which three fail: the
invariant holds in a state with one entry and the keys `A` and `B`. -/
theorem C17_invariant_witness :
    ((∀ e ∈ (runCalls NewCronParser
          [.cronTab "A=1\n* */5 * * * root ls\n=x".toList, .line "hello".toList,
           .entry "bad".toList, .environment "B=2".toList, .environment [] ]).CronTab,
      ∀ o ∈ [e.Minute, e.Hour, e.Day, e.Month, e.DayOfWeek],
        ∃ c : CronSection, o = some c ∧ c.Time ≠ [] ∧
          (∀ x ∈ c.Time, x.isDigit = true ∨ x = '*') ∧
          (∀ x ∈ c.Interval, x.isDigit = true) ∧ '*' ∉ c.Interval) ∧
    (∀ k v, (runCalls NewCronParser
          [.cronTab "A=1\n* */5 * * * root ls\n=x".toList, .line "hello".toList,
           .entry "bad".toList, .environment "B=2".toList, .environment [] ]).Environment k =
        some v → k ≠ [])) ∧
    (runCalls NewCronParser
          [.cronTab "A=1\n* */5 * * * root ls\n=x".toList, .line "hello".toList,
           .entry "bad".toList, .environment "B=2".toList, .environment [] ]).CronTab.length
        = 1 ∧
    (runCalls NewCronParser
          [.cronTab "A=1\n* */5 * * * root ls\n=x".toList, .line "hello".toList,
           .entry "bad".toList, .environment "B=2".toList, .environment [] ]).Environment
        "B".toList = some "2".toList :=
  ⟨C17_invariant _, by decide, by decide⟩

/-- C18: when `parseSection` accepts a token with the result `r`, the token is
`r.Time` if `r.Interval` is empty and `r.Time`, a `/` and `r.Interval` otherwise, and
`r.Interval` is empty exactly when the token holds no `/`; so two accepted tokens
with the same result are equal. -/
theorem C18_parseSection_lossless :
    (∀ (token : Str) (r : CronSection), parseSection token = .ok r →
      token = (if r.Interval = [] then r.Time else r.Time ++ '/' :: r.Interval) ∧
      (r.Interval = [] ↔ '/' ∉ token)) ∧
    (∀ (t1 t2 : Str) (r : CronSection), parseSection t1 = .ok r → parseSection t2 = .ok r →
      t1 = t2) := by
  have key : ∀ (token : Str) (r : CronSection), parseSection token = .ok r →
      token = (if r.Interval = [] then r.Time else r.Time ++ '/' :: r.Interval) ∧
      (r.Interval = [] ↔ '/' ∉ token) := by
    intro token r h
    rcases (parseSection_ok_iff token r).1 h with ⟨h1, h2, rfl⟩ | ⟨b, s, rfl, hb, ⟨hs0, hs⟩, rfl⟩
    · refine ⟨by simp, ?_⟩
      simp only [true_iff]
      exact slash_not_mem_of_regexSection token ((regexSection_iff token).2 ⟨h1, h2⟩)
    · refine ⟨by simp [hs0], ?_⟩
      simp [hs0]
  refine ⟨key, fun t1 t2 r h1 h2 => ?_⟩
  rw [(key t1 r h1).1, (key t2 r h2).1]

/-- C18, at the tokens `*/5` and `30`. -/
theorem C18_parseSection_lossless_witness :
    ("*/5".toList = (if "5".toList = [] then "*".toList else "*".toList ++ '/' :: "5".toList) ∧
      ("5".toList = [] ↔ '/' ∉ "*/5".toList)) ∧
    ("30".toList = (if ([] : Str) = [] then "30".toList else "30".toList ++ '/' :: []) ∧
      (([] : Str) = [] ↔ '/' ∉ "30".toList)) ∧
    "*/5".toList = "*/5".toList :=
  ⟨C18_parseSection_lossless.1 "*/5".toList { Time := "*".toList, Interval := "5".toList }
      (by decide),
   C18_parseSection_lossless.1 "30".toList { Time := "30".toList, Interval := [] } (by decide),
   C18_parseSection_lossless.2 "*/5".toList "*/5".toList
      { Time := "*".toList, Interval := "5".toList } (by decide) (by decide)⟩

/-- C19: `ParseCronTab` on `a`, a newline and `b` returns what `ParseCronTab` on `a`
followed, only if it returned nil, by `ParseCronTab` on `b` from the resulting state
returns, with the same final state; if `ParseCronTab` on `a` does not return nil, the
combined call ends the same way in the same state. -/
theorem C19_compositional (cp : CronParser) (a b : Str) :
    ParseCronTab cp (a ++ '\n' :: b) =
      match ParseCronTab cp a with
      | (.nil, cp1) => ParseCronTab cp1 b
      | (r, cp1) => (r, cp1) := by
  unfold ParseCronTab
  rw [Split_append _ _ _ a (le_refl _), ParseCronTabLoop_append]

/-- C20: for tokens `t1`..`t5` accepted by `parseSection`, a non-empty user token `u`
without space or tab and non-empty runs `w1`..`w6` of spaces and tabs, `parseLine`
on `t1 w1 t2 w2 t3 w3 t4 w4 t5 w5 u w6` succeeds with the user `u` and the empty
command, and on the same line without `w6` it fails with the token-count error;
and the user of every entry that `parseLine` returns is not empty and holds no space
or tab. -/
theorem C20_empty_command
    (t1 t2 t3 t4 t5 u w1 w2 w3 w4 w5 w6 : Str) (s1 s2 s3 s4 s5 : CronSection)
    (h1 : parseSection t1 = .ok s1) (h2 : parseSection t2 = .ok s2)
    (h3 : parseSection t3 = .ok s3) (h4 : parseSection t4 = .ok s4)
    (h5 : parseSection t5 = .ok s5)
    (hu0 : u ≠ []) (hu : ∀ x ∈ u, x ≠ ' ' ∧ x ≠ '\t')
    (hw1 : w1 ≠ [] ∧ ∀ x ∈ w1, x = ' ' ∨ x = '\t')
    (hw2 : w2 ≠ [] ∧ ∀ x ∈ w2, x = ' ' ∨ x = '\t')
    (hw3 : w3 ≠ [] ∧ ∀ x ∈ w3, x = ' ' ∨ x = '\t')
    (hw4 : w4 ≠ [] ∧ ∀ x ∈ w4, x = ' ' ∨ x = '\t')
    (hw5 : w5 ≠ [] ∧ ∀ x ∈ w5, x = ' ' ∨ x = '\t')
    (hw6 : w6 ≠ [] ∧ ∀ x ∈ w6, x = ' ' ∨ x = '\t') :
    parseLine (t1 ++ w1 ++ t2 ++ w2 ++ t3 ++ w3 ++ t4 ++ w4 ++ t5 ++ w5 ++ u ++ w6) =
      .ok { Minute := some s1, Hour := some s2, Day := some s3, Month := some s4,
            DayOfWeek := some s5, User := u, Command := [] } ∧
    parseLine (t1 ++ w1 ++ t2 ++ w2 ++ t3 ++ w3 ++ t4 ++ w4 ++ t5 ++ w5 ++ u) =
      .error (.notEnoughComponents
        (t1 ++ w1 ++ t2 ++ w2 ++ t3 ++ w3 ++ t4 ++ w4 ++ t5 ++ w5 ++ u)) ∧
    (∀ (line : Str) (e : CronEntry), parseLine line = .ok e →
      e.User ≠ [] ∧ ∀ x ∈ e.User, x ≠ ' ' ∧ x ≠ '\t') := by
  have b1 : w1 ≠ [] ∧ ∀ x ∈ w1, isBlank x = true :=
    ⟨hw1.1, fun x hx => (isBlank_iff x).2 (hw1.2 x hx)⟩
  have b2 : w2 ≠ [] ∧ ∀ x ∈ w2, isBlank x = true :=
    ⟨hw2.1, fun x hx => (isBlank_iff x).2 (hw2.2 x hx)⟩
  have b3 : w3 ≠ [] ∧ ∀ x ∈ w3, isBlank x = true :=
    ⟨hw3.1, fun x hx => (isBlank_iff x).2 (hw3.2 x hx)⟩
  have b4 : w4 ≠ [] ∧ ∀ x ∈ w4, isBlank x = true :=
    ⟨hw4.1, fun x hx => (isBlank_iff x).2 (hw4.2 x hx)⟩
  have b5 : w5 ≠ [] ∧ ∀ x ∈ w5, isBlank x = true :=
    ⟨hw5.1, fun x hx => (isBlank_iff x).2 (hw5.2 x hx)⟩
  have b6 : w6 ≠ [] ∧ ∀ x ∈ w6, isBlank x = true :=
    ⟨hw6.1, fun x hx => (isBlank_iff x).2 (hw6.2 x hx)⟩
  have bu := fun x hx => (isBlank_eq_false_iff x).2 (hu x hx)
  obtain ⟨n1, k1⟩ := parseSection_ok_token t1 s1 h1
  obtain ⟨n2, k2⟩ := parseSection_ok_token t2 s2 h2
  obtain ⟨n3, k3⟩ := parseSection_ok_token t3 s3 h3
  obtain ⟨n4, k4⟩ := parseSection_ok_token t4 s4 h4
  obtain ⟨n5, k5⟩ := parseSection_ok_token t5 s5 h5
  refine ⟨?_, ?_, fun line e he => ?_⟩
  · have e7 := regexWhitespaceSplit_seven t1 t2 t3 t4 t5 u [] w1 w2 w3 w4 w5 w6
      k1 n2 k2 n3 k3 n4 k4 n5 k5 hu0 bu b1 b2 b3 b4 b5 b6 (by simp)
    apply parseLine_of_split _ _ _ _ _ _ _ _ _ _ _ _ _ _ h1 h2 h3 h4 h5
    simpa only [List.append_assoc, List.append_nil] using e7
  · have e6 := regexWhitespaceSplit_six t1 t2 t3 t4 t5 u w1 w2 w3 w4 w5
      k1 n2 k2 n3 k3 n4 k4 n5 k5 hu0 bu b1 b2 b3 b4 b5
    apply parseLine_short
    simp only [List.append_assoc]
    rw [e6]
    simp
  · obtain ⟨s0, s1, s2, s3, s4, s5, s6, c0, c1, c2, c3, c4, hs, -, -, -, -, -, rfl⟩ :=
      parseLine_ok_inv line e he
    obtain ⟨hne, hnb⟩ := regexWhitespaceSplit_sixth line s0 s1 s2 s3 s4 s5 s6 hs
    exact ⟨hne, fun x hx => (isBlank_eq_false_iff x).1 (hnb x hx)⟩

/-- C20, at the line `* * * * * root` followed by a space, and at the same line
without the space. -/
theorem C20_empty_command_witness :
    parseLine "* * * * * root ".toList =
      .ok { Minute := some { Time := "*".toList, Interval := [] },
            Hour := some { Time := "*".toList, Interval := [] },
            Day := some { Time := "*".toList, Interval := [] },
            Month := some { Time := "*".toList, Interval := [] },
            DayOfWeek := some { Time := "*".toList, Interval := [] },
            User := "root".toList, Command := [] } ∧
    parseLine "* * * * * root".toList =
      .error (.notEnoughComponents "* * * * * root".toList) :=
  let h := C20_empty_command "*".toList "*".toList "*".toList "*".toList "*".toList
    "root".toList " ".toList " ".toList " ".toList " ".toList " ".toList
    " ".toList _ _ _ _ _ (by decide) (by decide) (by decide) (by decide) (by decide)
    (by decide) (by decide) (by decide) (by decide) (by decide) (by decide) (by decide)
    (by decide)
  ⟨h.1, h.2.1⟩

end Cronparser
